import Mathlib

/-!
Verification development for the NukeScan entity-resolution pipeline
(`src/nukescan_pipeline.py`).

The embedding models the resolver core: the entity registry, the similarity
scan of `resolve_name` (lines 86-145), the interactive `prompt_user`
continuation (lines 147-235), the record standardizer `standardize_entry`
(lines 335-364), and registry persistence `load_entities`/`save_entities`
(lines 68-84).

Modelling conventions:
- The sentence-embedding cosine similarity (`model.encode` + `util.cos_sim`)
  is an external service; it is abstracted as a function
  `sim : String → String → ℚ` carried in the `Session` record.  The Python
  float threshold `0.85` is modelled as the exact rational `85/100`.
- The module-global interactive state (`CONFIRM_MATCHES`, `_prompt_handler`,
  the `input()` replies) is modelled as the `Session` record: each call's
  human replies are supplied by oracles keyed on `(entity_type, name)`, and
  the fresh `uuid.uuid4()` of a created entity by the `newId` oracle.
- Python dict entities become the flat structure `Entity`; the keys that the
  code adds only for some types (`city`, `province_state`, `country`,
  `publisher`) are always-present fields defaulting to `""` (a missing key is
  read back with `.get(key, "")` in the source).
- In-place mutation of an aliased dict (`best_entry`, `existing_entry`)
  becomes an indexed functional update (`updateAt`) at the entity's position
  in the registry list.
- Strings are treated at ASCII level for `lower()` and the `\w` class of
  `clean_text`'s regex.
-/

/-- The closed set of entity types of the registry (`"author"`,
`"affiliation"`, `"journal"` strings in the source). -/
inductive EntityType
  | author
  | affiliation
  | journal
deriving DecidableEq

/-- A registry record, as built by `prompt_user`: common keys `id`, `type`,
`standard_name`, `variants`, plus the per-type extra keys modelled as
always-present fields defaulting to `""`. -/
structure Entity where
  id : String
  type : EntityType
  standard_name : String
  variants : List String
  city : String := ""
  province_state : String := ""
  country : String := ""
  publisher : String := ""
deriving DecidableEq

/-- The `additional_info` dict collected by `prompt_user`; read back with
`additional_info.get(key, "")`, hence fields defaulting to `""`. -/
structure AdditionalInfo where
  city : String := ""
  province_state : String := ""
  country : String := ""
  publisher : String := ""
deriving DecidableEq

/-- Whether the best comparison came from a standard name or a variant
(`best_match_source` in `resolve_name`, values `"standard"`/`"variant"`). -/
inductive MatchSource
  | standard
  | variant
deriving DecidableEq

/-- ASCII model of Python `str.lower()`. -/
def lowerStr (s : String) : String :=
  String.mk (s.toList.map Char.toLower)

/-- Model of Python `str.strip()`: drop leading and trailing whitespace. -/
def trimStr (s : String) : String :=
  String.mk (((s.toList.dropWhile Char.isWhitespace).reverse.dropWhile
    Char.isWhitespace).reverse)

/-- A character kept by `clean_text`'s regex `re.sub(r"[^\w\s]", "", text)`:
word characters (`\w`, ASCII reading). -/
def isWordChar (c : Char) : Bool :=
  c.isAlphanum || c == '_'

/-- Whitespace characters (`\s`) kept by `clean_text`'s regex. -/
def isSpaceChar (c : Char) : Bool :=
  c == ' ' || c == '\t' || c == '\n' || c == '\r' || c == Char.ofNat 11 || c == Char.ofNat 12

/-- `clean_text` (lines 41-43): lowercase, drop punctuation
(everything outside `\w` and `\s`), strip surrounding whitespace. -/
def clean_text (text : String) : String :=
  trimStr (String.mk ((lowerStr text).toList.filter (fun c => isWordChar c || isSpaceChar c)))

/-- The reply parser of the confirmation question
`confirm = input(...).strip().lower()`; `confirm in ['y', 'yes']`. -/
def isYes (reply : String) : Bool :=
  let c := lowerStr (trimStr reply)
  c == "y" || c == "yes"

/-- The fixed accept threshold `0.85` of `resolve_name` (line 122), as the
exact rational `85/100` (spelled with `mkRat` so that concrete comparisons
evaluate by kernel reduction). -/
def threshold : ℚ := mkRat 85 100

/-- The human answer consumed by one `prompt_user` call: either the installed
`_prompt_handler` returned `(user_input, additional_info)`, or the console
branch read `raw_input` (already `.strip()`-ped in the source before use) and
would collect the optional extra fields. -/
inductive PromptInput
  | handler (userInput : String) (info : AdditionalInfo)
  | console (rawInput : String) (info : AdditionalInfo)
deriving DecidableEq

/-- `clean_text` applied to each collected extra field, as the console branch
of `prompt_user` does on every `input(...)`. -/
def cleanInfo (info : AdditionalInfo) : AdditionalInfo :=
  { city := clean_text info.city
    province_state := clean_text info.province_state
    country := clean_text info.country
    publisher := clean_text info.publisher }

/-- One resolution session: the global `CONFIRM_MATCHES` flag, the similarity
measure (the embedding model abstracted), and the human-reply oracles keyed by
`(entity_type, name)` of the call, plus the fresh-id oracle for `uuid.uuid4()`. -/
structure Session where
  confirm_matches : Bool
  sim : String → String → ℚ
  confirmReply : EntityType → String → String
  promptInput : EntityType → String → PromptInput
  newId : EntityType → String → String

/-- State of the best-match scan loop of `resolve_name` (lines 94-119):
`best_score`, `best_match`, `best_entry` (kept as its index in
`all_entities`), `best_match_source`, and the Python loop variable `variant`
as left bound after the loops (`lastVariant`). -/
structure MatchState where
  best_score : ℚ
  best_match : Option String
  best_idx : Option Nat
  best_match_source : Option MatchSource
  lastVariant : Option String
deriving DecidableEq

/-- Initial scan state: `best_match = None`, `best_score = 0`,
`best_entry = None`, `best_match_source = None`. -/
def initState : MatchState :=
  { best_score := 0, best_match := none, best_idx := none
    best_match_source := none, lastVariant := none }

/-- The type filter `[e for e in all_entities if e.get("type") == entity_type]`
(line 89), keeping each kept entity's index in `all_entities` (the source keeps
the dict itself, aliased; the index models the alias). -/
def typeIdx (entity_type : EntityType) : Nat → List Entity → List (Nat × Entity)
  | _, [] => []
  | i, e :: es =>
    if e.type = entity_type then (i, e) :: typeIdx entity_type (i + 1) es
    else typeIdx entity_type (i + 1) es

/-- Inner loop body of the scan, for one `variant` of the current entry
(lines 111-119).  The loop variable `variant` is recorded in `lastVariant`. -/
def scanVariant (simm : String → ℚ) (i : Nat) (sname : String)
    (st : MatchState) (v : String) : MatchState :=
  let st := { st with lastVariant := some v }
  let score := simm v
  if score > st.best_score then
    { st with
      best_score := score,
      best_match := some sname,
      best_idx := some i,
      best_match_source := some MatchSource.variant }
  else st

/-- Outer loop body of the scan, for one entry of the filtered list
(lines 99-119): compare the standard name, then every variant. -/
def scanEntity (simm : String → ℚ) (st : MatchState) (p : Nat × Entity) : MatchState :=
  let score := simm p.2.standard_name
  let st :=
    if score > st.best_score then
      { st with
        best_score := score,
        best_match := some p.2.standard_name,
        best_idx := some p.1,
        best_match_source := some MatchSource.standard }
    else st
  p.2.variants.foldl (scanVariant simm p.1 p.2.standard_name) st

/-- The whole best-match scan of `resolve_name` for a query whose similarity
function is `simm := sim name`. -/
def matchScan (simm : String → ℚ) (entity_type : EntityType)
    (all_entities : List Entity) : MatchState :=
  (typeIdx entity_type 0 all_entities).foldl (scanEntity simm) initState

/-- The confirmation message fragment of `resolve_name` (line 125):
`f"variant '{variant}'" if best_match_source == "variant" else
f"standard name '{best_match}'"`.  Note that the source reads the stale loop
variable `variant` here, not the variant that produced the best score. -/
def match_info (st : MatchState) : String :=
  if st.best_match_source = some MatchSource.variant then
    "variant " ++ st.lastVariant.getD ""
  else
    "standard name " ++ st.best_match.getD ""

/-- Replace the entity at an index by an updated copy; models in-place
mutation of the aliased dict inside the `all_entities` list. -/
def updateAt : Nat → (Entity → Entity) → List Entity → List Entity
  | _, _, [] => []
  | 0, f, e :: es => f e :: es
  | Nat.succ j, f, e :: es => e :: updateAt j f es

/-- `if name not in entry["variants"]: entry["variants"].append(name)` —
the guarded variant attachment used by both accept paths and by the
existing-standard-name branch of `prompt_user`. -/
def attachVariant (name : String) (e : Entity) : Entity :=
  if name ∈ e.variants then e else { e with variants := e.variants ++ [name] }

/-- Position of the first entity satisfying a predicate; models
`next((entry for entry in all_entities if ...), None)` combined with the
subsequent in-place mutation of the found dict. -/
def findIndex (p : Entity → Bool) : List Entity → Option Nat
  | [] => none
  | e :: es => if p e then some 0 else (findIndex p es).map (· + 1)

/-- The new dict built by `prompt_user` (lines 186-199 and 219-232): common
fields plus the per-type extra fields from `additional_info.get(key, "")`. -/
def mkEntity (newId : String) (entity_type : EntityType) (sname : String)
    (vars : List String) (info : AdditionalInfo) : Entity :=
  match entity_type with
  | EntityType.affiliation =>
    { id := newId, type := entity_type, standard_name := sname, variants := vars
      city := info.city, province_state := info.province_state, country := info.country }
  | EntityType.journal =>
    { id := newId, type := entity_type, standard_name := sname, variants := vars
      publisher := info.publisher }
  | EntityType.author =>
    { id := newId, type := entity_type, standard_name := sname, variants := vars }

/-- Common continuation of `prompt_user` once `user_input` and
`additional_info` are fixed (lines 173-235): a nonempty `user_input` is looked
up among entities of this type and either merged into (variant attached) or
created fresh; an empty `user_input` falls through to the keep-as-is branch,
which creates a new entity for the original `name` with empty `variants`
(lines 204-235) — note: without looking up an existing standard name. -/
def promptUserCore (user_input : String) (info : AdditionalInfo) (newId : String)
    (name : String) (entity_type : EntityType) (all_entities : List Entity) :
    String × List Entity :=
  if user_input ≠ "" then
    match findIndex
        (fun e => decide (e.type = entity_type ∧ e.standard_name = user_input))
        all_entities with
    | some i => (user_input, updateAt i (attachVariant name) all_entities)
    | none =>
      (user_input,
        all_entities ++
          [mkEntity newId entity_type user_input
            (if name ≠ user_input then [name] else []) info])
  else
    (name, all_entities ++ [mkEntity newId entity_type name [] info])

/-- `prompt_user` (lines 147-235).  With a handler installed, its returned
pair is used as is; on the console branch, `"empty"`/`"none"` (lowercased,
stripped) returns the empty value with the registry untouched, any other
input is `clean_text`-ed (empty input staying empty), and the collected
extra fields are `clean_text`-ed. -/
def prompt_user (sess : Session) (name : String) (entity_type : EntityType)
    (_url : String) (all_entities : List Entity) : String × List Entity :=
  match sess.promptInput entity_type name with
  | PromptInput.handler user_input info =>
    promptUserCore user_input info (sess.newId entity_type name) name entity_type all_entities
  | PromptInput.console rawInput info =>
    let raw := trimStr rawInput
    if lowerStr raw == "empty" || lowerStr raw == "none" then
      ("", all_entities)
    else
      promptUserCore (if raw ≠ "" then clean_text raw else "") (cleanInfo info)
        (sess.newId entity_type name) name entity_type all_entities

/-- `resolve_name` (lines 86-145): filter by type, scan for the best match,
and either accept (attaching the query as a variant) — directly, or after a
positive confirmation when `CONFIRM_MATCHES` — or fall through to
`prompt_user`.  `url` is used by the source only inside printed text. -/
def resolve_name (sess : Session) (name : String) (all_entities : List Entity)
    (entity_type : EntityType) (url : String) : String × List Entity :=
  let st := matchScan (sess.sim name) entity_type all_entities
  match st.best_idx with
  | some i =>
    if st.best_score > threshold then
      let best_match := st.best_match.getD ""
      if sess.confirm_matches then
        if isYes (sess.confirmReply entity_type name) then
          (best_match, updateAt i (attachVariant name) all_entities)
        else prompt_user sess name entity_type url all_entities
      else (best_match, updateAt i (attachVariant name) all_entities)
    else prompt_user sess name entity_type url all_entities
  | none => prompt_user sess name entity_type url all_entities

/-- Instrumentation mirroring `resolve_name`'s control flow: `true` exactly
when the call falls through to `prompt_user` (the Disambiguation Prompt),
i.e. when there is no entry scoring above the threshold, or the human rejects
the confirmation in confirm mode. -/
def reachesPrompt (sess : Session) (name : String) (all_entities : List Entity)
    (entity_type : EntityType) : Bool :=
  let st := matchScan (sess.sim name) entity_type all_entities
  match st.best_idx with
  | some _ =>
    if st.best_score > threshold then
      sess.confirm_matches && !(isYes (sess.confirmReply entity_type name))
    else true
  | none => true

/-- Whether a `prompt_user` answer takes the keep-as-is (pass-through) branch:
the effective `user_input` comes out empty without the explicit
`"empty"`/`"none"` console marker. -/
def passThroughInput : PromptInput → Bool
  | PromptInput.handler u _ => decide (u = "")
  | PromptInput.console rawInput _ =>
    let raw := trimStr rawInput
    !(lowerStr raw == "empty" || lowerStr raw == "none") &&
      decide ((if raw ≠ "" then clean_text raw else "") = "")

/-- Whether a `prompt_user` answer is the explicit empty marker
(console `"empty"`/`"none"`, line 157). -/
def markerInput : PromptInput → Bool
  | PromptInput.handler _ _ => false
  | PromptInput.console rawInput _ =>
    let raw := trimStr rawInput
    lowerStr raw == "empty" || lowerStr raw == "none"

/-- The input record of `standardize_entry` (see `scrape_url`/`manual_entry`:
keys `url`, `title`, `year`, `abstract`, `authors`, `affiliations`,
`journal`). -/
structure Entry where
  url : String
  title : String
  year : String
  abstract : String
  authors : List String
  affiliations : List String
  journal : String
deriving DecidableEq

/-- The per-list loop of `standardize_entry` (lines 341-347 and 350-356):
skip falsy (empty) names, resolve the rest threading the registry, and keep
only non-empty resolved values. -/
def resolveNames (sess : Session) (entity_type : EntityType) (url : String) :
    List String → List Entity → List String × List Entity
  | [], es => ([], es)
  | nm :: rest, es =>
    if nm = "" then resolveNames sess entity_type url rest es
    else
      let r := resolve_name sess nm es entity_type url
      let rec' := resolveNames sess entity_type url rest r.2
      (if r.1 ≠ "" then r.1 :: rec'.1 else rec'.1, rec'.2)

/-- `standardize_entry` (lines 335-364): resolve authors, affiliations and the
journal (the journal only when non-empty), replacing the fields in the record
and threading the registry through. -/
def standardize_entry (sess : Session) (entry : Entry) (all_entities : List Entity) :
    Entry × List Entity :=
  let url := entry.url
  let ra := resolveNames sess EntityType.author url entry.authors all_entities
  let rf := resolveNames sess EntityType.affiliation url entry.affiliations ra.2
  let rj :=
    if entry.journal ≠ "" then
      resolve_name sess entry.journal rf.2 EntityType.journal url
    else (entry.journal, rf.2)
  ({ entry with authors := ra.1, affiliations := rf.1, journal := rj.1 }, rj.2)

/-- Specification-side overall score of one candidate (spec 4.2): the maximum
of the query's similarity against the candidate's `standard_name` and against
each of its `variants`.  (`resolve_name` never materialises this number; it is
the reference notion the scan is compared with.) -/
def specOverallScore (simm : String → ℚ) (e : Entity) : ℚ :=
  e.variants.foldl (fun b v => max b (simm v)) (simm e.standard_name)

/-- Specification-side selection recursion: fold the candidate list keeping
the first candidate whose overall score strictly exceeds everything before it.
Used to state what the scan of `resolve_name` computes. -/
def bestFold (simm : String → ℚ) :
    List (Nat × Entity) → ℚ → Option Nat → Option String → ℚ × Option Nat × Option String
  | [], b, d, m => (b, d, m)
  | p :: ps, b, d, m =>
    let o := specOverallScore simm p.2
    if o > b then bestFold simm ps o (some p.1) (some p.2.standard_name)
    else bestFold simm ps b d m

/-- Registry-uniqueness check: no two entities share both `type` and
`standard_name` (spec section 3 invariant). -/
def uniqueNames : List Entity → Bool
  | [] => true
  | e :: es =>
    es.all (fun x => !(decide (e.type = x.type ∧ e.standard_name = x.standard_name))) &&
      uniqueNames es

/-- JSON values as far as the registry persistence format needs them
(strings, arrays, objects). -/
inductive Jv
  | str (s : String)
  | arr (xs : List Jv)
  | obj (fields : List (String × Jv))

/-- The serialized spelling of an entity type. -/
def typeName : EntityType → String
  | EntityType.author => "author"
  | EntityType.affiliation => "affiliation"
  | EntityType.journal => "journal"

/-- Parse a serialized entity type. -/
def typeOfString (s : String) : Option EntityType :=
  if s = "author" then some EntityType.author
  else if s = "affiliation" then some EntityType.affiliation
  else if s = "journal" then some EntityType.journal
  else none

/-- The JSON object written for one entity: common keys plus the per-type
extra keys, exactly the dict shape `prompt_user` builds and
`save_entities` serializes. -/
def entityToJson (e : Entity) : Jv :=
  Jv.obj
    ([("id", Jv.str e.id), ("type", Jv.str (typeName e.type)),
      ("standard_name", Jv.str e.standard_name),
      ("variants", Jv.arr (e.variants.map Jv.str))] ++
      (match e.type with
       | EntityType.affiliation =>
         [("city", Jv.str e.city), ("province_state", Jv.str e.province_state),
          ("country", Jv.str e.country)]
       | EntityType.journal => [("publisher", Jv.str e.publisher)]
       | EntityType.author => []))

/-- Field lookup in a JSON object. -/
def jGet (fields : List (String × Jv)) (k : String) : Option Jv :=
  (fields.find? (fun p => decide (p.1 = k))).map (fun p => p.2)

/-- Read a JSON string. -/
def asStr : Jv → Option String
  | Jv.str s => some s
  | _ => none

/-- Read a list of JSON strings (all elements must be strings). -/
def strListM : List Jv → Option (List String)
  | [] => some []
  | j :: js => (asStr j).bind fun s => (strListM js).bind fun ss => some (s :: ss)

/-- Read a JSON array of strings. -/
def asStrList : Jv → Option (List String)
  | Jv.arr xs => strListM xs
  | _ => none

/-- Decode one entity record of the persistence format (spec section 6);
the per-type extra keys default to `""` when absent. -/
def entityOfJson : Jv → Option Entity
  | Jv.obj fs => do
    let i ← (jGet fs "id").bind asStr
    let tyS ← (jGet fs "type").bind asStr
    let ty ← typeOfString tyS
    let sn ← (jGet fs "standard_name").bind asStr
    let vs ← (jGet fs "variants").bind asStrList
    some
      { id := i, type := ty, standard_name := sn, variants := vs
        city := ((jGet fs "city").bind asStr).getD ""
        province_state := ((jGet fs "province_state").bind asStr).getD ""
        country := ((jGet fs "country").bind asStr).getD ""
        publisher := ((jGet fs "publisher").bind asStr).getD "" }
  | _ => none

/-- `save_entities` (lines 81-84): serialize the full collection as one JSON
array (the file write itself is I/O plumbing outside the embedding). -/
def save_entities (entities : List Jv) : Jv :=
  Jv.arr entities

/-- `load_entities` (lines 68-79) over the parsed content of the file:
`none` = file absent, `some none` = `json.JSONDecodeError`, `some (some j)` =
parsed content; anything that is not a JSON list yields the empty registry. -/
def load_entities : Option (Option Jv) → List Jv
  | none => []
  | some none => []
  | some (some (Jv.arr xs)) => xs
  | some (some (Jv.str _)) => []
  | some (some (Jv.obj _)) => []

/-- Well-formedness of the flat `Entity` model with respect to the
per-type key shape of the persisted dicts: fields a type's dict does not
carry are `""`. -/
def WFEntity (e : Entity) : Prop :=
  (e.type = EntityType.author →
    e.city = "" ∧ e.province_state = "" ∧ e.country = "" ∧ e.publisher = "") ∧
  (e.type = EntityType.affiliation → e.publisher = "") ∧
  (e.type = EntityType.journal →
    e.city = "" ∧ e.province_state = "" ∧ e.country = "")

/-- Running maximum of similarities over a list of strings, seeded with `b`;
the shape of the scan's accumulation of `best_score`. -/
def maxFrom (simm : String → ℚ) (b : ℚ) (vs : List String) : ℚ :=
  vs.foldl (fun x v => max x (simm v)) b

/-! ### Properties of the best-match scan -/

theorem maxFrom_nil (simm : String → ℚ) (b : ℚ) : maxFrom simm b [] = b := rfl

theorem maxFrom_cons (simm : String → ℚ) (b : ℚ) (v : String) (vs : List String) :
    maxFrom simm b (v :: vs) = maxFrom simm (max b (simm v)) vs := rfl

theorem le_maxFrom (simm : String → ℚ) :
    ∀ (vs : List String) (b : ℚ), b ≤ maxFrom simm b vs := by
  intro vs
  induction vs with
  | nil => intro b; exact le_refl b
  | cons v vs ih =>
    intro b
    rw [maxFrom_cons]
    exact le_trans (le_max_left b (simm v)) (ih (max b (simm v)))

theorem maxFrom_max (simm : String → ℚ) :
    ∀ (vs : List String) (a b : ℚ),
      maxFrom simm (max a b) vs = max a (maxFrom simm b vs) := by
  intro vs
  induction vs with
  | nil => intro a b; rfl
  | cons v vs ih =>
    intro a b
    rw [maxFrom_cons, maxFrom_cons, max_assoc, ih]

theorem scanVariant_fold_spec (simm : String → ℚ) (i : Nat) (sname : String) :
    ∀ (vs : List String) (st : MatchState),
      (vs.foldl (scanVariant simm i sname) st).best_score = maxFrom simm st.best_score vs ∧
      ((vs.foldl (scanVariant simm i sname) st).best_idx,
          (vs.foldl (scanVariant simm i sname) st).best_match) =
        (if st.best_score < maxFrom simm st.best_score vs then (some i, some sname)
         else (st.best_idx, st.best_match)) := by
  intro vs
  induction vs with
  | nil =>
    intro st
    refine ⟨rfl, ?_⟩
    rw [maxFrom_nil, if_neg (lt_irrefl st.best_score), List.foldl_nil]
  | cons v vs ih =>
    intro st
    rw [List.foldl_cons, maxFrom_cons]
    rcases ih (scanVariant simm i sname st v) with ⟨h1, h2⟩
    by_cases h : simm v > st.best_score
    · have hs : (scanVariant simm i sname st v).best_score = simm v := by
        simp [scanVariant, h]
      have hi : (scanVariant simm i sname st v).best_idx = some i := by
        simp [scanVariant, h]
      have hm : (scanVariant simm i sname st v).best_match = some sname := by
        simp [scanVariant, h]
      rw [hs] at h1 h2
      rw [hi, hm] at h2
      have hmax : max st.best_score (simm v) = simm v := max_eq_right (le_of_lt h)
      have hlt : st.best_score < maxFrom simm (simm v) vs :=
        lt_of_lt_of_le h (le_maxFrom simm vs (simm v))
      refine ⟨by rw [hmax]; exact h1, ?_⟩
      rw [hmax, if_pos hlt, h2]
      split <;> rfl
    · have hs : (scanVariant simm i sname st v).best_score = st.best_score := by
        simp [scanVariant, h]
      have hi : (scanVariant simm i sname st v).best_idx = st.best_idx := by
        simp [scanVariant, h]
      have hm : (scanVariant simm i sname st v).best_match = st.best_match := by
        simp [scanVariant, h]
      rw [hs] at h1 h2
      rw [hi, hm] at h2
      have hmax : max st.best_score (simm v) = st.best_score :=
        max_eq_left (le_of_not_lt h)
      exact ⟨by rw [hmax]; exact h1, by rw [hmax]; exact h2⟩

theorem scanEntity_spec (simm : String → ℚ) (st : MatchState) (p : Nat × Entity) :
    (scanEntity simm st p).best_score = max st.best_score (specOverallScore simm p.2) ∧
    ((scanEntity simm st p).best_idx, (scanEntity simm st p).best_match) =
      (if st.best_score < specOverallScore simm p.2 then (some p.1, some p.2.standard_name)
       else (st.best_idx, st.best_match)) := by
  have hov : specOverallScore simm p.2 =
      maxFrom simm (simm p.2.standard_name) p.2.variants := rfl
  by_cases h : simm p.2.standard_name > st.best_score
  · have hse : scanEntity simm st p =
        p.2.variants.foldl (scanVariant simm p.1 p.2.standard_name)
          { st with
            best_score := simm p.2.standard_name,
            best_match := some p.2.standard_name,
            best_idx := some p.1,
            best_match_source := some MatchSource.standard } := by
      simp [scanEntity, h]
    rcases scanVariant_fold_spec simm p.1 p.2.standard_name p.2.variants
        { st with
          best_score := simm p.2.standard_name,
          best_match := some p.2.standard_name,
          best_idx := some p.1,
          best_match_source := some MatchSource.standard } with ⟨h1, h2⟩
    dsimp only at h1 h2
    rw [← hse] at h1 h2
    have hlt : st.best_score < specOverallScore simm p.2 :=
      lt_of_lt_of_le h (by rw [hov]; exact le_maxFrom simm p.2.variants (simm p.2.standard_name))
    have hmax : max st.best_score (specOverallScore simm p.2) =
        maxFrom simm (simm p.2.standard_name) p.2.variants := by
      rw [hov]
      exact max_eq_right (le_of_lt hlt)
    refine ⟨by rw [hmax]; exact h1, ?_⟩
    rw [if_pos hlt, h2]
    split <;> rfl
  · have hse : scanEntity simm st p =
        p.2.variants.foldl (scanVariant simm p.1 p.2.standard_name) st := by
      simp [scanEntity, h]
    rcases scanVariant_fold_spec simm p.1 p.2.standard_name p.2.variants st with ⟨h1, h2⟩
    rw [← hse] at h1 h2
    have hmf : maxFrom simm st.best_score p.2.variants =
        max st.best_score (specOverallScore simm p.2) := by
      rw [hov, ← maxFrom_max simm p.2.variants st.best_score (simm p.2.standard_name),
        max_eq_left (le_of_not_lt h)]
    rw [hmf] at h1 h2
    refine ⟨h1, ?_⟩
    rw [h2]
    by_cases hc : st.best_score < specOverallScore simm p.2
    · rw [if_pos hc, if_pos (lt_max_iff.mpr (Or.inr hc))]
    · rw [if_neg hc, if_neg (by rw [max_eq_left (le_of_not_lt hc)]; exact lt_irrefl _)]

theorem scan_foldl_spec (simm : String → ℚ) :
    ∀ (ps : List (Nat × Entity)) (st : MatchState),
      ((ps.foldl (scanEntity simm) st).best_score,
        (ps.foldl (scanEntity simm) st).best_idx,
        (ps.foldl (scanEntity simm) st).best_match) =
        bestFold simm ps st.best_score st.best_idx st.best_match := by
  intro ps
  induction ps with
  | nil => intro st; rw [List.foldl_nil, bestFold]
  | cons p ps ih =>
    intro st
    rw [List.foldl_cons]
    rcases scanEntity_spec simm st p with ⟨h1, h2⟩
    by_cases h : st.best_score < specOverallScore simm p.2
    · have hs : (scanEntity simm st p).best_score = specOverallScore simm p.2 := by
        rw [h1]; exact max_eq_right (le_of_lt h)
      have h2' := h2
      rw [if_pos h, Prod.mk.injEq] at h2'
      rw [ih (scanEntity simm st p), hs, h2'.1, h2'.2]
      show _ = bestFold simm (p :: ps) st.best_score st.best_idx st.best_match
      simp only [bestFold]
      rw [if_pos h]
    · have hs : (scanEntity simm st p).best_score = st.best_score := by
        rw [h1]; exact max_eq_left (le_of_not_lt h)
      have h2' := h2
      rw [if_neg h, Prod.mk.injEq] at h2'
      rw [ih (scanEntity simm st p), hs, h2'.1, h2'.2]
      show _ = bestFold simm (p :: ps) st.best_score st.best_idx st.best_match
      simp only [bestFold]
      rw [if_neg h]

theorem bestFold_seed_le (simm : String → ℚ) :
    ∀ (ps : List (Nat × Entity)) (b : ℚ) (d : Option Nat) (m : Option String),
      b ≤ (bestFold simm ps b d m).1 := by
  intro ps
  induction ps with
  | nil => intro b d m; exact le_refl b
  | cons p ps ih =>
    intro b d m
    simp only [bestFold]
    by_cases h : specOverallScore simm p.2 > b
    · rw [if_pos h]
      exact le_trans (le_of_lt h) (ih _ _ _)
    · rw [if_neg h]
      exact ih _ _ _

theorem bestFold_mem_le (simm : String → ℚ) :
    ∀ (ps : List (Nat × Entity)) (b : ℚ) (d : Option Nat) (m : Option String)
      (p : Nat × Entity), p ∈ ps → specOverallScore simm p.2 ≤ (bestFold simm ps b d m).1 := by
  intro ps
  induction ps with
  | nil => intro b d m p hp; exact absurd hp (List.not_mem_nil p)
  | cons q ps ih =>
    intro b d m p hp
    rcases List.mem_cons.mp hp with hq | hmem
    · subst hq
      simp only [bestFold]
      by_cases h : specOverallScore simm p.2 > b
      · rw [if_pos h]
        exact bestFold_seed_le simm ps _ _ _
      · rw [if_neg h]
        exact le_trans (le_of_not_lt h) (bestFold_seed_le simm ps _ _ _)
    · simp only [bestFold]
      by_cases h : specOverallScore simm q.2 > b
      · rw [if_pos h]
        exact ih _ _ _ p hmem
      · rw [if_neg h]
        exact ih _ _ _ p hmem

theorem bestFold_stay (simm : String → ℚ) :
    ∀ (ps : List (Nat × Entity)) (b : ℚ) (d : Option Nat) (m : Option String),
      (bestFold simm ps b d m).1 = b →
      (bestFold simm ps b d m).2.1 = d ∧ (bestFold simm ps b d m).2.2 = m := by
  intro ps
  induction ps with
  | nil => intro b d m _; exact ⟨rfl, rfl⟩
  | cons p ps ih =>
    intro b d m hb
    by_cases h : specOverallScore simm p.2 > b
    · exfalso
      have h1 : bestFold simm (p :: ps) b d m =
          bestFold simm ps (specOverallScore simm p.2) (some p.1) (some p.2.standard_name) := by
        simp only [bestFold]
        rw [if_pos h]
      rw [h1] at hb
      have := bestFold_seed_le simm ps (specOverallScore simm p.2) (some p.1)
        (some p.2.standard_name)
      rw [hb] at this
      exact absurd h (not_lt_of_le this)
    · have h1 : bestFold simm (p :: ps) b d m = bestFold simm ps b d m := by
        simp only [bestFold]
        rw [if_neg h]
      rw [h1] at hb ⊢
      exact ih b d m hb

theorem bestFold_first (simm : String → ℚ) :
    ∀ (ps : List (Nat × Entity)) (b : ℚ) (d : Option Nat) (m : Option String),
      b < (bestFold simm ps b d m).1 →
      ∃ (j : Nat) (p : Nat × Entity), ps[j]? = some p ∧
        specOverallScore simm p.2 = (bestFold simm ps b d m).1 ∧
        (bestFold simm ps b d m).2.1 = some p.1 ∧
        (bestFold simm ps b d m).2.2 = some p.2.standard_name ∧
        ∀ (k : Nat) (q : Nat × Entity), k < j → ps[k]? = some q →
          specOverallScore simm q.2 < (bestFold simm ps b d m).1 := by
  intro ps
  induction ps with
  | nil => intro b d m hb; exact absurd hb (lt_irrefl b)
  | cons p ps ih =>
    intro b d m hb
    by_cases h : specOverallScore simm p.2 > b
    · have h1 : bestFold simm (p :: ps) b d m =
          bestFold simm ps (specOverallScore simm p.2) (some p.1) (some p.2.standard_name) := by
        simp only [bestFold]
        rw [if_pos h]
      by_cases h2 : specOverallScore simm p.2 <
          (bestFold simm ps (specOverallScore simm p.2) (some p.1) (some p.2.standard_name)).1
      · rcases ih (specOverallScore simm p.2) (some p.1) (some p.2.standard_name) h2 with
          ⟨j, q, hq, hsc, hidx, hm, hfirst⟩
        refine ⟨j + 1, q, ?_, ?_, ?_, ?_, ?_⟩
        · rw [List.getElem?_cons_succ]; exact hq
        · rw [h1]; exact hsc
        · rw [h1]; exact hidx
        · rw [h1]; exact hm
        · intro k r hk hr
          match k, hk with
          | 0, _ =>
            rw [List.getElem?_cons_zero] at hr
            cases hr
            rw [h1]
            exact lt_of_lt_of_le h2 (le_of_eq rfl) |>.trans_le (le_of_eq rfl) |>.trans_le
              (le_refl _)
          | (k' + 1), hk =>
            rw [List.getElem?_cons_succ] at hr
            rw [h1]
            exact hfirst k' r (Nat.lt_of_succ_lt_succ hk) hr
      · have heq : (bestFold simm ps (specOverallScore simm p.2) (some p.1)
            (some p.2.standard_name)).1 = specOverallScore simm p.2 :=
          le_antisymm (le_of_not_lt h2) (bestFold_seed_le simm ps _ _ _)
        rcases bestFold_stay simm ps (specOverallScore simm p.2) (some p.1)
            (some p.2.standard_name) heq with ⟨hidx, hm⟩
        refine ⟨0, p, List.getElem?_cons_zero, ?_, ?_, ?_, ?_⟩
        · rw [h1, heq]
        · rw [h1]; exact hidx
        · rw [h1]; exact hm
        · intro k q hk _
          exact absurd hk (Nat.not_lt_zero k)
    · have h1 : bestFold simm (p :: ps) b d m = bestFold simm ps b d m := by
        simp only [bestFold]
        rw [if_neg h]
      rw [h1] at hb
      rcases ih b d m hb with ⟨j, q, hq, hsc, hidx, hm, hfirst⟩
      refine ⟨j + 1, q, ?_, ?_, ?_, ?_, ?_⟩
      · rw [List.getElem?_cons_succ]; exact hq
      · rw [h1]; exact hsc
      · rw [h1]; exact hidx
      · rw [h1]; exact hm
      · intro k r hk hr
        match k, hk with
        | 0, _ =>
          rw [List.getElem?_cons_zero] at hr
          cases hr
          rw [h1]
          exact lt_of_le_of_lt (le_of_not_lt h) hb
        | (k' + 1), hk =>
          rw [List.getElem?_cons_succ] at hr
          rw [h1]
          exact hfirst k' r (Nat.lt_of_succ_lt_succ hk) hr

theorem bestFold_member (simm : String → ℚ) :
    ∀ (ps : List (Nat × Entity)) (b : ℚ) (d : Option Nat) (m : Option String),
      ((bestFold simm ps b d m).2.1 = d ∧ (bestFold simm ps b d m).2.2 = m) ∨
      ∃ p ∈ ps, (bestFold simm ps b d m).2.1 = some p.1 ∧
        (bestFold simm ps b d m).2.2 = some p.2.standard_name := by
  intro ps
  induction ps with
  | nil => intro b d m; exact Or.inl ⟨rfl, rfl⟩
  | cons p ps ih =>
    intro b d m
    by_cases h : specOverallScore simm p.2 > b
    · have h1 : bestFold simm (p :: ps) b d m =
          bestFold simm ps (specOverallScore simm p.2) (some p.1) (some p.2.standard_name) := by
        simp only [bestFold]
        rw [if_pos h]
      rw [h1]
      rcases ih (specOverallScore simm p.2) (some p.1) (some p.2.standard_name) with
        hstay | ⟨q, hq, hidx, hm⟩
      · exact Or.inr ⟨p, List.mem_cons_self p ps, hstay.1, hstay.2⟩
      · exact Or.inr ⟨q, List.mem_cons_of_mem p hq, hidx, hm⟩
    · have h1 : bestFold simm (p :: ps) b d m = bestFold simm ps b d m := by
        simp only [bestFold]
        rw [if_neg h]
      rw [h1]
      rcases ih b d m with hstay | ⟨q, hq, hidx, hm⟩
      · exact Or.inl hstay
      · exact Or.inr ⟨q, List.mem_cons_of_mem p hq, hidx, hm⟩

/-! ### Indexing helpers -/

theorem typeIdx_mem (t : EntityType) :
    ∀ (es : List Entity) (k : Nat) (i : Nat) (e : Entity),
      (i, e) ∈ typeIdx t k es → k ≤ i ∧ es[i - k]? = some e ∧ e.type = t := by
  intro es
  induction es with
  | nil => intro k i e h; exact absurd h (List.not_mem_nil (i, e))
  | cons e0 es ih =>
    intro k i e h
    rw [typeIdx] at h
    by_cases h0 : e0.type = t
    · rw [if_pos h0] at h
      rcases List.mem_cons.mp h with heq | hmem
      · have h1 : i = k ∧ e = e0 := ⟨(Prod.mk.injEq _ _ _ _ ▸ heq).1, (Prod.mk.injEq _ _ _ _ ▸ heq).2⟩
        rcases h1 with ⟨hi, he⟩
        subst hi
        subst he
        refine ⟨le_refl i, ?_, h0⟩
        rw [Nat.sub_self, List.getElem?_cons_zero]
      · rcases ih (k + 1) i e hmem with ⟨hk, hget, ht⟩
        refine ⟨le_trans (Nat.le_succ k) hk, ?_, ht⟩
        have hik : i - k = (i - (k + 1)) + 1 := by omega
        rw [hik, List.getElem?_cons_succ]
        exact hget
    · rw [if_neg h0] at h
      rcases ih (k + 1) i e h with ⟨hk, hget, ht⟩
      refine ⟨le_trans (Nat.le_succ k) hk, ?_, ht⟩
      have hik : i - k = (i - (k + 1)) + 1 := by omega
      rw [hik, List.getElem?_cons_succ]
      exact hget

theorem typeIdx_mem_zero (t : EntityType) (es : List Entity) (i : Nat) (e : Entity)
    (h : (i, e) ∈ typeIdx t 0 es) : es[i]? = some e ∧ e.type = t := by
  rcases typeIdx_mem t es 0 i e h with ⟨_, hget, ht⟩
  rw [Nat.sub_zero] at hget
  exact ⟨hget, ht⟩

theorem getElem?_some_lt {α : Type} :
    ∀ (l : List α) (j : Nat) (a : α), l[j]? = some a → j < l.length := by
  intro l
  induction l with
  | nil => intro j a h; rw [List.getElem?_nil] at h; cases h
  | cons x l ih =>
    intro j a h
    match j with
    | 0 => exact Nat.succ_pos l.length
    | (j' + 1) =>
      rw [List.getElem?_cons_succ] at h
      exact Nat.succ_lt_succ (ih j' a h)

theorem updateAt_length (f : Entity → Entity) :
    ∀ (es : List Entity) (i : Nat), (updateAt i f es).length = es.length := by
  intro es
  induction es with
  | nil => intro i; cases i <;> rfl
  | cons e es ih =>
    intro i
    match i with
    | 0 => rfl
    | (j + 1) =>
      show (e :: updateAt j f es).length = (e :: es).length
      rw [List.length_cons, List.length_cons, ih j]

theorem updateAt_get_self (f : Entity → Entity) :
    ∀ (es : List Entity) (i : Nat) (e : Entity),
      es[i]? = some e → (updateAt i f es)[i]? = some (f e) := by
  intro es
  induction es with
  | nil => intro i e h; rw [List.getElem?_nil] at h; cases h
  | cons x es ih =>
    intro i e h
    match i with
    | 0 =>
      rw [List.getElem?_cons_zero] at h
      cases h
      show (f x :: es)[0]? = some (f x)
      rw [List.getElem?_cons_zero]
    | (j + 1) =>
      rw [List.getElem?_cons_succ] at h
      show (x :: updateAt j f es)[j + 1]? = some (f e)
      rw [List.getElem?_cons_succ]
      exact ih j e h

theorem updateAt_get_other (f : Entity → Entity) :
    ∀ (es : List Entity) (i j : Nat), j ≠ i → (updateAt i f es)[j]? = es[j]? := by
  intro es
  induction es with
  | nil => intro i j _; cases i <;> rfl
  | cons x es ih =>
    intro i j hne
    match i, j with
    | 0, 0 => exact absurd rfl hne
    | 0, (j' + 1) =>
      show (f x :: es)[j' + 1]? = (x :: es)[j' + 1]?
      rw [List.getElem?_cons_succ, List.getElem?_cons_succ]
    | (i' + 1), 0 =>
      show (x :: updateAt i' f es)[0]? = (x :: es)[0]?
      rw [List.getElem?_cons_zero, List.getElem?_cons_zero]
    | (i' + 1), (j' + 1) =>
      show (x :: updateAt i' f es)[j' + 1]? = (x :: es)[j' + 1]?
      rw [List.getElem?_cons_succ, List.getElem?_cons_succ]
      exact ih i' j' (fun h => hne (congrArg Nat.succ h))

theorem updateAt_id (f : Entity → Entity) :
    ∀ (es : List Entity) (i : Nat) (e : Entity),
      es[i]? = some e → f e = e → updateAt i f es = es := by
  intro es
  induction es with
  | nil => intro i e h _; rw [List.getElem?_nil] at h; cases h
  | cons x es ih =>
    intro i e h hf
    match i with
    | 0 =>
      rw [List.getElem?_cons_zero] at h
      cases h
      show f x :: es = x :: es
      rw [hf]
    | (j + 1) =>
      rw [List.getElem?_cons_succ] at h
      show x :: updateAt j f es = x :: es
      rw [ih j e h hf]

theorem updateAt_congr (f g : Entity → Entity) :
    ∀ (es : List Entity) (i : Nat) (e : Entity),
      es[i]? = some e → f e = g e → updateAt i f es = updateAt i g es := by
  intro es
  induction es with
  | nil => intro i e h _; rw [List.getElem?_nil] at h; cases h
  | cons x es ih =>
    intro i e h hfg
    match i with
    | 0 =>
      rw [List.getElem?_cons_zero] at h
      cases h
      show f x :: es = g x :: es
      rw [hfg]
    | (j + 1) =>
      rw [List.getElem?_cons_succ] at h
      show x :: updateAt j f es = x :: updateAt j g es
      rw [ih j e h hfg]

theorem getElem?_append_left {α : Type} :
    ∀ (l₁ l₂ : List α) (j : Nat), j < l₁.length → (l₁ ++ l₂)[j]? = l₁[j]? := by
  intro l₁
  induction l₁ with
  | nil => intro l₂ j h; exact absurd h (Nat.not_lt_zero j)
  | cons x l₁ ih =>
    intro l₂ j h
    match j with
    | 0 =>
      show (x :: (l₁ ++ l₂))[0]? = (x :: l₁)[0]?
      rw [List.getElem?_cons_zero, List.getElem?_cons_zero]
    | (j' + 1) =>
      show (x :: (l₁ ++ l₂))[j' + 1]? = (x :: l₁)[j' + 1]?
      rw [List.getElem?_cons_succ, List.getElem?_cons_succ]
      exact ih l₂ j' (Nat.lt_of_succ_lt_succ h)

theorem findIndex_some (p : Entity → Bool) :
    ∀ (es : List Entity) (i : Nat), findIndex p es = some i →
      ∃ e, es[i]? = some e ∧ p e = true := by
  intro es
  induction es with
  | nil => intro i h; cases h
  | cons x es ih =>
    intro i h
    rw [findIndex] at h
    by_cases hx : p x
    · rw [if_pos hx] at h
      cases h
      exact ⟨x, List.getElem?_cons_zero, hx⟩
    · rw [if_neg hx] at h
      rcases Option.map_eq_some'.mp h with ⟨i', hi', hplus⟩
      rcases ih i' hi' with ⟨e, hget, hpe⟩
      refine ⟨e, ?_, hpe⟩
      rw [← hplus, List.getElem?_cons_succ]
      exact hget

theorem findIndex_none (p : Entity → Bool) :
    ∀ (es : List Entity), findIndex p es = none →
      ∀ e ∈ es, p e = false := by
  intro es
  induction es with
  | nil => intro _ e he; exact absurd he (List.not_mem_nil e)
  | cons x es ih =>
    intro h e he
    rw [findIndex] at h
    by_cases hx : p x
    · rw [if_pos hx] at h; cases h
    · rw [if_neg hx] at h
      rcases List.mem_cons.mp he with heq | hmem
      · subst heq; exact Bool.of_not_eq_true hx
      · exact ih (Option.map_eq_none'.mp h) e hmem

/-! ### Field facts about entity construction and variant attachment -/

theorem mkEntity_type (newId : String) (t : EntityType) (sname : String)
    (vars : List String) (info : AdditionalInfo) :
    (mkEntity newId t sname vars info).type = t := by
  cases t <;> rfl

theorem mkEntity_standard_name (newId : String) (t : EntityType) (sname : String)
    (vars : List String) (info : AdditionalInfo) :
    (mkEntity newId t sname vars info).standard_name = sname := by
  cases t <;> rfl

theorem mkEntity_variants (newId : String) (t : EntityType) (sname : String)
    (vars : List String) (info : AdditionalInfo) :
    (mkEntity newId t sname vars info).variants = vars := by
  cases t <;> rfl

theorem attachVariant_type (name : String) (e : Entity) :
    (attachVariant name e).type = e.type := by
  rw [attachVariant]
  split <;> rfl

theorem attachVariant_standard_name (name : String) (e : Entity) :
    (attachVariant name e).standard_name = e.standard_name := by
  rw [attachVariant]
  split <;> rfl

theorem attachVariant_id (name : String) (e : Entity) :
    (attachVariant name e).id = e.id := by
  rw [attachVariant]
  split <;> rfl

theorem attachVariant_city (name : String) (e : Entity) :
    (attachVariant name e).city = e.city := by
  rw [attachVariant]
  split <;> rfl

theorem attachVariant_province_state (name : String) (e : Entity) :
    (attachVariant name e).province_state = e.province_state := by
  rw [attachVariant]
  split <;> rfl

theorem attachVariant_country (name : String) (e : Entity) :
    (attachVariant name e).country = e.country := by
  rw [attachVariant]
  split <;> rfl

theorem attachVariant_publisher (name : String) (e : Entity) :
    (attachVariant name e).publisher = e.publisher := by
  rw [attachVariant]
  split <;> rfl

theorem attachVariant_variants (name : String) (e : Entity) :
    (attachVariant name e).variants = e.variants ∨
    (attachVariant name e).variants = e.variants ++ [name] := by
  rw [attachVariant]
  split
  · exact Or.inl rfl
  · exact Or.inr rfl

/-! ### Corollaries about the whole scan -/

theorem matchScan_spec (simm : String → ℚ) (t : EntityType) (es : List Entity) :
    ((matchScan simm t es).best_score,
      (matchScan simm t es).best_idx,
      (matchScan simm t es).best_match) =
      bestFold simm (typeIdx t 0 es) 0 none none := by
  have h := scan_foldl_spec simm (typeIdx t 0 es) initState
  exact h

theorem matchScan_score_nonneg (simm : String → ℚ) (t : EntityType) (es : List Entity) :
    0 ≤ (matchScan simm t es).best_score := by
  have h := congrArg Prod.fst (matchScan_spec simm t es)
  simp only at h
  rw [h]
  exact bestFold_seed_le simm (typeIdx t 0 es) 0 none none

theorem matchScan_idx_valid (simm : String → ℚ) (t : EntityType) (es : List Entity)
    (i : Nat) (h : (matchScan simm t es).best_idx = some i) :
    ∃ e, es[i]? = some e ∧ e.type = t ∧
      (matchScan simm t es).best_match = some e.standard_name := by
  have hspec := matchScan_spec simm t es
  have hidx : (bestFold simm (typeIdx t 0 es) 0 none none).2.1 = some i := by
    rw [← congrArg (fun x => x.2.1) hspec]
    exact h
  rcases bestFold_member simm (typeIdx t 0 es) 0 none none with hstay | ⟨p, hp, hpidx, hpm⟩
  · rw [hstay.1] at hidx
    cases hidx
  · rcases typeIdx_mem_zero t es p.1 p.2 hp with ⟨hget, ht⟩
    rw [hpidx] at hidx
    have hip : p.1 = i := Option.some.injEq _ _ ▸ hidx
    refine ⟨p.2, by rw [← hip]; exact hget, ht, ?_⟩
    have hm : (matchScan simm t es).best_match =
        (bestFold simm (typeIdx t 0 es) 0 none none).2.2 :=
      congrArg (fun x => x.2.2) hspec
    rw [hm, hpm]

theorem matchScan_pos_of_idx_some (simm : String → ℚ) (t : EntityType) (es : List Entity)
    (i : Nat) (h : (matchScan simm t es).best_idx = some i) :
    0 < (matchScan simm t es).best_score := by
  have hspec := matchScan_spec simm t es
  have hs : (matchScan simm t es).best_score =
      (bestFold simm (typeIdx t 0 es) 0 none none).1 := congrArg Prod.fst hspec
  rcases lt_or_eq_of_le (matchScan_score_nonneg simm t es) with hlt | heq
  · exact hlt
  · exfalso
    have h0 : (bestFold simm (typeIdx t 0 es) 0 none none).1 = 0 := by
      rw [← hs, ← heq]
    rcases bestFold_stay simm (typeIdx t 0 es) 0 none none h0 with ⟨hstay, _⟩
    have hidx : (bestFold simm (typeIdx t 0 es) 0 none none).2.1 = some i := by
      rw [← congrArg (fun x => x.2.1) hspec]
      exact h
    rw [hstay] at hidx
    cases hidx

theorem matchScan_idx_some_of_pos (simm : String → ℚ) (t : EntityType) (es : List Entity)
    (h : 0 < (matchScan simm t es).best_score) :
    ∃ i, (matchScan simm t es).best_idx = some i := by
  have hspec := matchScan_spec simm t es
  have hs : (matchScan simm t es).best_score =
      (bestFold simm (typeIdx t 0 es) 0 none none).1 := congrArg Prod.fst hspec
  rw [hs] at h
  rcases bestFold_first simm (typeIdx t 0 es) 0 none none h with
    ⟨_, p, _, _, hidx, _, _⟩
  refine ⟨p.1, ?_⟩
  have h21 : (matchScan simm t es).best_idx =
      (bestFold simm (typeIdx t 0 es) 0 none none).2.1 :=
    congrArg (fun x => x.2.1) hspec
  rw [h21]
  exact hidx

theorem threshold_pos : (0 : ℚ) < threshold := by decide

/-! ### Control-flow dispatch of resolve_name -/

theorem resolve_dispatch_prompt (sess : Session) (name : String) (es : List Entity)
    (t : EntityType) (url : String) (h : reachesPrompt sess name es t = true) :
    resolve_name sess name es t url = prompt_user sess name t url es := by
  rw [reachesPrompt] at h
  rw [resolve_name]
  cases hidx : (matchScan (sess.sim name) t es).best_idx with
  | none => simp only
  | some i =>
    rw [hidx] at h
    simp only at h ⊢
    by_cases hth : (matchScan (sess.sim name) t es).best_score > threshold
    · rw [if_pos hth] at h ⊢
      rw [Bool.and_eq_true] at h
      rcases h with ⟨hc, hny⟩
      have hy : isYes (sess.confirmReply t name) = false := by
        revert hny
        cases isYes (sess.confirmReply t name) <;> simp
      simp [hc, hy]
    · rw [if_neg hth]

theorem resolve_dispatch_accept (sess : Session) (name : String) (es : List Entity)
    (t : EntityType) (url : String) (h : reachesPrompt sess name es t = false) :
    ∃ i e, (matchScan (sess.sim name) t es).best_idx = some i ∧
      es[i]? = some e ∧ e.type = t ∧
      threshold < (matchScan (sess.sim name) t es).best_score ∧
      resolve_name sess name es t url =
        (e.standard_name, updateAt i (attachVariant name) es) := by
  rw [reachesPrompt] at h
  cases hidx : (matchScan (sess.sim name) t es).best_idx with
  | none =>
    rw [hidx] at h
    simp only at h
    cases h
  | some i =>
    rw [hidx] at h
    simp only at h
    by_cases hth : (matchScan (sess.sim name) t es).best_score > threshold
    · rcases matchScan_idx_valid (sess.sim name) t es i hidx with ⟨e, hget, htype, hm⟩
      refine ⟨i, e, rfl, hget, htype, hth, ?_⟩
      rw [resolve_name]
      rw [hidx]
      simp only
      rw [if_pos hth] at h ⊢
      rw [hm]
      cases hc : sess.confirm_matches with
      | false => simp
      | true =>
        rw [hc] at h
        rw [Bool.true_and] at h
        have hy : isYes (sess.confirmReply t name) = true := by
          revert h
          cases isYes (sess.confirmReply t name) <;> simp
        simp [hy]
    · rw [if_neg hth] at h
      cases h

/-! ### Frame lemmas: the three possible registry effects -/

theorem promptUserCore_cases (u : String) (info : AdditionalInfo) (nid name : String)
    (t : EntityType) (es : List Entity) :
    (promptUserCore u info nid name t es).2 = es ∨
    (∃ i e, es[i]? = some e ∧ e.type = t ∧ ¬(name ∈ e.variants) ∧
      (promptUserCore u info nid name t es).2 =
        updateAt i (fun x => { x with variants := x.variants ++ [name] }) es) ∨
    (∃ x, x.type = t ∧ (promptUserCore u info nid name t es).2 = es ++ [x]) := by
  rw [promptUserCore]
  by_cases hu : u ≠ ""
  · rw [if_pos hu]
    cases hfind : findIndex (fun e => decide (e.type = t ∧ e.standard_name = u)) es with
    | some i =>
      simp only
      rcases findIndex_some _ es i hfind with ⟨e, hget, hp⟩
      have hpe : e.type = t ∧ e.standard_name = u := of_decide_eq_true hp
      by_cases hin : name ∈ e.variants
      · left
        exact updateAt_id (attachVariant name) es i e hget (by rw [attachVariant, if_pos hin])
      · right; left
        refine ⟨i, e, hget, hpe.1, hin, ?_⟩
        exact updateAt_congr _ _ es i e hget (by rw [attachVariant, if_neg hin])
    | none =>
      simp only
      right; right
      exact ⟨mkEntity nid t u (if name ≠ u then [name] else []) info,
        mkEntity_type _ _ _ _ _, rfl⟩
  · rw [if_neg hu]
    right; right
    exact ⟨mkEntity nid t name [] info, mkEntity_type _ _ _ _ _, rfl⟩

theorem prompt_user_cases (sess : Session) (name : String) (t : EntityType)
    (url : String) (es : List Entity) :
    (prompt_user sess name t url es).2 = es ∨
    (∃ i e, es[i]? = some e ∧ e.type = t ∧ ¬(name ∈ e.variants) ∧
      (prompt_user sess name t url es).2 =
        updateAt i (fun x => { x with variants := x.variants ++ [name] }) es) ∨
    (∃ x, x.type = t ∧ (prompt_user sess name t url es).2 = es ++ [x]) := by
  rw [prompt_user]
  cases hpi : sess.promptInput t name with
  | handler u info =>
    simp only
    exact promptUserCore_cases u info (sess.newId t name) name t es
  | console raw info =>
    simp only
    by_cases hmk : lowerStr (trimStr raw) == "empty" || lowerStr (trimStr raw) == "none"
    · rw [if_pos hmk]
      left
      rfl
    · rw [if_neg hmk]
      exact promptUserCore_cases _ _ (sess.newId t name) name t es

theorem resolve_name_cases (sess : Session) (name : String) (es : List Entity)
    (t : EntityType) (url : String) :
    (resolve_name sess name es t url).2 = es ∨
    (∃ i e, es[i]? = some e ∧ e.type = t ∧ ¬(name ∈ e.variants) ∧
      (resolve_name sess name es t url).2 =
        updateAt i (fun x => { x with variants := x.variants ++ [name] }) es) ∨
    (∃ x, x.type = t ∧ (resolve_name sess name es t url).2 = es ++ [x]) := by
  cases hr : reachesPrompt sess name es t with
  | true =>
    rw [resolve_dispatch_prompt sess name es t url hr]
    exact prompt_user_cases sess name t url es
  | false =>
    rcases resolve_dispatch_accept sess name es t url hr with
      ⟨i, e, _, hget, htype, _, heq⟩
    rw [heq]
    by_cases hin : name ∈ e.variants
    · left
      simp only
      exact updateAt_id (attachVariant name) es i e hget (by rw [attachVariant, if_pos hin])
    · right; left
      refine ⟨i, e, hget, htype, hin, ?_⟩
      simp only
      exact updateAt_congr _ _ es i e hget (by rw [attachVariant, if_neg hin])

/-! ### Registry uniqueness of standard names -/

theorem all_notkey_updateAt (a : Entity) (f : Entity → Entity)
    (hf : ∀ e, (f e).type = e.type ∧ (f e).standard_name = e.standard_name) :
    ∀ (es : List Entity) (i : Nat),
      (updateAt i f es).all
          (fun y => !(decide (a.type = y.type ∧ a.standard_name = y.standard_name))) =
        es.all (fun y => !(decide (a.type = y.type ∧ a.standard_name = y.standard_name))) := by
  intro es
  induction es with
  | nil => intro i; cases i <;> rfl
  | cons x es ih =>
    intro i
    match i with
    | 0 =>
      show (f x :: es).all _ = (x :: es).all _
      rw [List.all_cons, List.all_cons, (hf x).1, (hf x).2]
    | (j + 1) =>
      show (x :: updateAt j f es).all _ = (x :: es).all _
      rw [List.all_cons, List.all_cons, ih j]

theorem uniqueNames_updateAt (f : Entity → Entity)
    (hf : ∀ e, (f e).type = e.type ∧ (f e).standard_name = e.standard_name) :
    ∀ (es : List Entity) (i : Nat),
      uniqueNames (updateAt i f es) = uniqueNames es := by
  intro es
  induction es with
  | nil => intro i; cases i <;> rfl
  | cons x es ih =>
    intro i
    match i with
    | 0 =>
      show uniqueNames (f x :: es) = uniqueNames (x :: es)
      rw [uniqueNames, uniqueNames]
      simp only [(hf x).1, (hf x).2]
    | (j + 1) =>
      show uniqueNames (x :: updateAt j f es) = uniqueNames (x :: es)
      rw [uniqueNames, uniqueNames, ih j, all_notkey_updateAt x f hf es j]

theorem uniqueNames_append_one :
    ∀ (es : List Entity) (x : Entity),
      uniqueNames (es ++ [x]) =
        (uniqueNames es &&
          es.all (fun e => !(decide (e.type = x.type ∧ e.standard_name = x.standard_name)))) := by
  intro es
  induction es with
  | nil => intro x; rfl
  | cons y es ih =>
    intro x
    show uniqueNames (y :: (es ++ [x])) = _
    rw [uniqueNames, ih x, List.all_append, uniqueNames, List.all_cons, List.all_cons,
      List.all_nil]
    have hsymm : (!(decide (y.type = x.type ∧ y.standard_name = x.standard_name))) =
        (!(decide (x.type = y.type ∧ x.standard_name = y.standard_name))) := by
      have hiff : (y.type = x.type ∧ y.standard_name = x.standard_name) ↔
          (x.type = y.type ∧ x.standard_name = y.standard_name) :=
        ⟨fun hp => ⟨hp.1.symm, hp.2.symm⟩, fun hp => ⟨hp.1.symm, hp.2.symm⟩⟩
      rw [decide_eq_decide.mpr hiff]
    rw [hsymm]
    cases h1 : (!(decide (x.type = y.type ∧ x.standard_name = y.standard_name))) <;>
    cases h2 : es.all (fun z => !(decide (y.type = z.type ∧ y.standard_name = z.standard_name))) <;>
    cases h3 : uniqueNames es <;>
    cases h4 : es.all (fun e => !(decide (e.type = x.type ∧ e.standard_name = x.standard_name))) <;>
    rfl

theorem attachVariant_key (name : String) :
    ∀ e : Entity, (attachVariant name e).type = e.type ∧
      (attachVariant name e).standard_name = e.standard_name :=
  fun e => ⟨attachVariant_type name e, attachVariant_standard_name name e⟩

theorem promptUserCore_unique (u : String) (info : AdditionalInfo) (nid name : String)
    (t : EntityType) (es : List Entity) (hu : u ≠ "")
    (huniq : uniqueNames es = true) :
    uniqueNames (promptUserCore u info nid name t es).2 = true := by
  rw [promptUserCore, if_pos hu]
  cases hfind : findIndex (fun e => decide (e.type = t ∧ e.standard_name = u)) es with
  | some i =>
    simp only
    rw [uniqueNames_updateAt (attachVariant name) (attachVariant_key name) es i]
    exact huniq
  | none =>
    simp only
    rw [uniqueNames_append_one, Bool.and_eq_true]
    refine ⟨huniq, ?_⟩
    rw [List.all_eq_true]
    intro e he
    have hfe : decide (e.type = t ∧ e.standard_name = u) = false :=
      findIndex_none _ es hfind e he
    rw [mkEntity_type, mkEntity_standard_name, hfe]
    rfl

theorem prompt_user_unique (sess : Session) (name : String) (t : EntityType)
    (url : String) (es : List Entity)
    (huniq : uniqueNames es = true)
    (hpt : passThroughInput (sess.promptInput t name) = false) :
    uniqueNames (prompt_user sess name t url es).2 = true := by
  rw [prompt_user]
  cases hpi : sess.promptInput t name with
  | handler u info =>
    rw [hpi] at hpt
    simp only [passThroughInput] at hpt
    simp only
    exact promptUserCore_unique u info (sess.newId t name) name t es
      (of_decide_eq_false hpt) huniq
  | console raw info =>
    rw [hpi] at hpt
    simp only [passThroughInput] at hpt
    simp only
    by_cases hmk : (lowerStr (trimStr raw) == "empty" || lowerStr (trimStr raw) == "none") = true
    · rw [if_pos hmk]
      exact huniq
    · rw [if_neg hmk]
      have hm0 : (lowerStr (trimStr raw) == "empty" || lowerStr (trimStr raw) == "none") = false := by
        revert hmk
        cases lowerStr (trimStr raw) == "empty" || lowerStr (trimStr raw) == "none" <;> simp
      rw [hm0] at hpt
      simp only [Bool.not_false, Bool.true_and] at hpt
      exact promptUserCore_unique _ _ (sess.newId t name) name t es
        (of_decide_eq_false hpt) huniq

/-- C1 (amended): registry uniqueness of standard names is preserved by every
resolution call that does not take `prompt_user`'s pass-through (keep-as-is)
branch: accepted matches only attach variants, and a typed standard name equal
to an existing entity's standard name of the same type is merged into that
entity rather than creating a duplicate.  (The pass-through branch appends a
new entity without a duplicate check — see the counterexample.) -/
theorem claim_C1 (sess : Session) (name : String) (es : List Entity)
    (t : EntityType) (url : String)
    (huniq : uniqueNames es = true)
    (hpt : passThroughInput (sess.promptInput t name) = false) :
    uniqueNames (resolve_name sess name es t url).2 = true := by
  cases hr : reachesPrompt sess name es t with
  | true =>
    rw [resolve_dispatch_prompt sess name es t url hr]
    exact prompt_user_unique sess name t url es huniq hpt
  | false =>
    rcases resolve_dispatch_accept sess name es t url hr with ⟨i, e, _, _, _, _, heq⟩
    rw [heq]
    simp only
    rw [uniqueNames_updateAt (attachVariant name) (attachVariant_key name) es i]
    exact huniq

/-- Witness for C1 at a concrete input: a typed new standard name keeps the
registry duplicate-free. -/
theorem claim_C1_witness :
    uniqueNames
      ((resolve_name
        { confirm_matches := false
          sim := fun _ _ => 0
          confirmReply := fun _ _ => "n"
          promptInput := fun _ _ => PromptInput.handler "qq" {}
          newId := fun _ _ => "7" }
        "q" [{ id := "1", type := EntityType.author, standard_name := "x", variants := [] }]
        EntityType.author "").2) = true :=
  claim_C1
    { confirm_matches := false
      sim := fun _ _ => 0
      confirmReply := fun _ _ => "n"
      promptInput := fun _ _ => PromptInput.handler "qq" {}
      newId := fun _ _ => "7" }
    "q" [{ id := "1", type := EntityType.author, standard_name := "x", variants := [] }]
    EntityType.author "" (by decide) (by decide)

/-- Counterexample to C1 as stated: in confirm mode, the human rejects the
(score 1) match for the query `"x"` and then gives no input; the pass-through
branch of `prompt_user` creates a second `author` entity with
`standard_name = "x"` — a duplicate standard name reached through a
resolution call. -/
theorem claim_C1_counterexample :
    uniqueNames
      ((resolve_name
        { confirm_matches := true
          sim := fun a b => if a = b then 1 else 0
          confirmReply := fun _ _ => "n"
          promptInput := fun _ _ => PromptInput.handler "" {}
          newId := fun _ _ => "2" }
        "x" [{ id := "1", type := EntityType.author, standard_name := "x", variants := [] }]
        EntityType.author "").2) = false ∧
    ((resolve_name
        { confirm_matches := true
          sim := fun a b => if a = b then 1 else 0
          confirmReply := fun _ _ => "n"
          promptInput := fun _ _ => PromptInput.handler "" {}
          newId := fun _ _ => "2" }
        "x" [{ id := "1", type := EntityType.author, standard_name := "x", variants := [] }]
        EntityType.author "").2).map (fun e => (e.type, e.standard_name)) =
      [(EntityType.author, "x"), (EntityType.author, "x")] := by
  decide

/-- C2 (amended): when confirm mode is off, the Disambiguation Prompt is
reached exactly when the type-filtered candidate list is empty or the best
score is ≤ 0.85; and whenever the best score exceeds the threshold the match
is auto-accepted — the query string is attached as a variant of the matched
entity (no-op if already present) and that entity's canonical
`standard_name` is returned without prompting.  (In confirm mode the prompt
is additionally reached when the human rejects the match — see the
counterexample.) -/
theorem claim_C2 (sess : Session) (name : String) (es : List Entity)
    (t : EntityType) (url : String) (hc : sess.confirm_matches = false) :
    (reachesPrompt sess name es t = true ↔
      (typeIdx t 0 es = [] ∨
        (matchScan (sess.sim name) t es).best_score ≤ threshold)) ∧
    (threshold < (matchScan (sess.sim name) t es).best_score →
      ∃ i e, (matchScan (sess.sim name) t es).best_idx = some i ∧
        es[i]? = some e ∧ e.type = t ∧
        resolve_name sess name es t url =
          (e.standard_name, updateAt i (attachVariant name) es)) := by
  constructor
  · constructor
    · intro hr
      by_cases hth : (matchScan (sess.sim name) t es).best_score ≤ threshold
      · exact Or.inr hth
      · exfalso
        have hpos : 0 < (matchScan (sess.sim name) t es).best_score :=
          lt_trans threshold_pos (lt_of_not_le hth)
        rcases matchScan_idx_some_of_pos (sess.sim name) t es hpos with ⟨i, hidx⟩
        rw [reachesPrompt, hidx] at hr
        simp only at hr
        rw [if_pos (lt_of_not_le hth), hc] at hr
        simp at hr
    · intro hd
      rw [reachesPrompt]
      cases hidx : (matchScan (sess.sim name) t es).best_idx with
      | none => simp only
      | some i =>
        simp only
        rcases hd with hempty | hle
        · exfalso
          rw [matchScan, hempty, List.foldl_nil] at hidx
          cases hidx
        · rw [if_neg (not_lt.mpr hle)]
  · intro hth
    have hpos : 0 < (matchScan (sess.sim name) t es).best_score :=
      lt_trans threshold_pos hth
    rcases matchScan_idx_some_of_pos (sess.sim name) t es hpos with ⟨i0, hidx0⟩
    have hr : reachesPrompt sess name es t = false := by
      rw [reachesPrompt, hidx0]
      simp only
      rw [if_pos hth, hc, Bool.false_and]
    rcases resolve_dispatch_accept sess name es t url hr with ⟨i, e, hidx, hget, ht, _, heq⟩
    exact ⟨i, e, hidx, hget, ht, heq⟩

/-- Witness for C2 at a concrete input (confirm mode off, exact match above
threshold). -/
theorem claim_C2_witness :
    (reachesPrompt
        { confirm_matches := false
          sim := fun a b => if a = b then 1 else 0
          confirmReply := fun _ _ => "n"
          promptInput := fun _ _ => PromptInput.handler "" {}
          newId := fun _ _ => "2" }
        "x" [{ id := "1", type := EntityType.author, standard_name := "x", variants := [] }]
        EntityType.author = true ↔
      (typeIdx EntityType.author 0
          [{ id := "1", type := EntityType.author, standard_name := "x", variants := [] }] = [] ∨
        (matchScan
            ((fun a b => if a = b then (1 : ℚ) else 0) "x") EntityType.author
            [{ id := "1", type := EntityType.author, standard_name := "x", variants := [] }]).best_score ≤
          threshold)) :=
  (claim_C2
    { confirm_matches := false
      sim := fun a b => if a = b then 1 else 0
      confirmReply := fun _ _ => "n"
      promptInput := fun _ _ => PromptInput.handler "" {}
      newId := fun _ _ => "2" }
    "x" [{ id := "1", type := EntityType.author, standard_name := "x", variants := [] }]
    EntityType.author "" rfl).1

/-- Counterexample to C2 as stated: in confirm mode, with a non-empty
candidate list and best score 1 > 0.85, the human's rejection sends the call
to the Disambiguation Prompt (which here creates a new entity from the typed
name) — so "prompt reached iff empty or ≤ 0.85" fails over all resolution
calls. -/
theorem claim_C2_counterexample :
    typeIdx EntityType.author 0
        [{ id := "1", type := EntityType.author, standard_name := "x", variants := [] }] ≠ [] ∧
    threshold <
      (matchScan ((fun (a b : String) => if a = b then (1 : ℚ) else 0) "x") EntityType.author
        [{ id := "1", type := EntityType.author, standard_name := "x", variants := [] }]).best_score ∧
    reachesPrompt
      { confirm_matches := true
        sim := fun a b => if a = b then 1 else 0
        confirmReply := fun _ _ => "n"
        promptInput := fun _ _ => PromptInput.handler "zz" {}
        newId := fun _ _ => "2" }
      "x" [{ id := "1", type := EntityType.author, standard_name := "x", variants := [] }]
      EntityType.author = true ∧
    resolve_name
      { confirm_matches := true
        sim := fun a b => if a = b then 1 else 0
        confirmReply := fun _ _ => "n"
        promptInput := fun _ _ => PromptInput.handler "zz" {}
        newId := fun _ _ => "2" }
      "x" [{ id := "1", type := EntityType.author, standard_name := "x", variants := [] }]
      EntityType.author "" =
      ("zz",
        [{ id := "1", type := EntityType.author, standard_name := "x", variants := [] },
          { id := "2", type := EntityType.author, standard_name := "zz", variants := ["x"] }]) := by
  decide

/-- C3 (amended): every candidate's overall score (the maximum of the query's
similarity against its `standard_name` and against each variant) is bounded by
the scan's best score; and whenever the best score is positive, the selected
entity is the first candidate achieving it in candidate-list iteration order
(every earlier candidate scores strictly lower) and its `standard_name` is the
reported match.  (When every comparison scores ≤ 0 no entity is selected at
all — see the counterexample.) -/
theorem claim_C3 (simm : String → ℚ) (t : EntityType) (es : List Entity) :
    (∀ p ∈ typeIdx t 0 es, specOverallScore simm p.2 ≤ (matchScan simm t es).best_score) ∧
    (0 < (matchScan simm t es).best_score →
      ∃ (j : Nat) (p : Nat × Entity), (typeIdx t 0 es)[j]? = some p ∧
        specOverallScore simm p.2 = (matchScan simm t es).best_score ∧
        (matchScan simm t es).best_idx = some p.1 ∧
        (matchScan simm t es).best_match = some p.2.standard_name ∧
        ∀ (k : Nat) (q : Nat × Entity), k < j → (typeIdx t 0 es)[k]? = some q →
          specOverallScore simm q.2 < (matchScan simm t es).best_score) := by
  have hspec := matchScan_spec simm t es
  have hs : (matchScan simm t es).best_score =
      (bestFold simm (typeIdx t 0 es) 0 none none).1 := congrArg Prod.fst hspec
  have hi : (matchScan simm t es).best_idx =
      (bestFold simm (typeIdx t 0 es) 0 none none).2.1 := congrArg (fun x => x.2.1) hspec
  have hm : (matchScan simm t es).best_match =
      (bestFold simm (typeIdx t 0 es) 0 none none).2.2 := congrArg (fun x => x.2.2) hspec
  constructor
  · intro p hp
    rw [hs]
    exact bestFold_mem_le simm (typeIdx t 0 es) 0 none none p hp
  · intro hpos
    rw [hs] at hpos
    rcases bestFold_first simm (typeIdx t 0 es) 0 none none hpos with
      ⟨j, p, hget, hsc, hidx, hmm, hfirst⟩
    refine ⟨j, p, hget, ?_, ?_, ?_, ?_⟩
    · rw [hs]; exact hsc
    · rw [hi]; exact hidx
    · rw [hm]; exact hmm
    · intro k q hk hq
      rw [hs]
      exact hfirst k q hk hq

/-- Witness for C3 at a concrete input: the single candidate's overall score
is bounded by the scan's best score. -/
theorem claim_C3_witness :
    specOverallScore ((fun (a b : String) => if a = b then (1 : ℚ) else 0) "x")
        { id := "1", type := EntityType.author, standard_name := "x", variants := [] } ≤
      (matchScan ((fun (a b : String) => if a = b then (1 : ℚ) else 0) "x") EntityType.author
        [{ id := "1", type := EntityType.author, standard_name := "x", variants := [] }]).best_score :=
  (claim_C3 ((fun (a b : String) => if a = b then (1 : ℚ) else 0) "x") EntityType.author
    [{ id := "1", type := EntityType.author, standard_name := "x", variants := [] }]).1
    (0, { id := "1", type := EntityType.author, standard_name := "x", variants := [] })
    (by decide)

/-- Counterexample to C3 as stated: with a non-empty candidate list whose
every comparison scores 0, the scan selects no entity at all (`best_entry`
stays `None`), so "the selected entity is one achieving the global maximum"
fails at the boundary. -/
theorem claim_C3_counterexample :
    typeIdx EntityType.author 0
        [{ id := "1", type := EntityType.author, standard_name := "x", variants := [] }] ≠ [] ∧
    (matchScan (fun _ => 0) EntityType.author
        [{ id := "1", type := EntityType.author, standard_name := "x", variants := [] }]).best_idx = none ∧
    (matchScan (fun _ => 0) EntityType.author
        [{ id := "1", type := EntityType.author, standard_name := "x", variants := [] }]).best_match = none := by
  decide

theorem getElem?_append_one :
    ∀ (es : List Entity) (x : Entity) (j : Nat) (e2 : Entity),
      (es ++ [x])[j]? = some e2 → es[j]? = some e2 ∨ e2 = x := by
  intro es
  induction es with
  | nil =>
    intro x j e2 h
    match j with
    | 0 =>
      rw [List.nil_append, List.getElem?_cons_zero] at h
      right
      exact (Option.some.inj h).symm
    | (j' + 1) =>
      rw [List.nil_append, List.getElem?_cons_succ, List.getElem?_nil] at h
      cases h
  | cons y es ih =>
    intro x j e2 h
    match j with
    | 0 =>
      rw [List.cons_append, List.getElem?_cons_zero] at h
      left
      rw [List.getElem?_cons_zero]
      exact h
    | (j' + 1) =>
      rw [List.cons_append, List.getElem?_cons_succ] at h
      rcases ih x j' e2 h with hl | hr
      · left
        rw [List.getElem?_cons_succ]
        exact hl
      · right
        exact hr

/-- C10: frame property of one resolution call: the registry is either
unchanged, or exactly one existing entity of the queried type gains the query
string as a new variant, or exactly one newly created entity of the queried
type is appended; and every pre-existing entity survives at its position with
its `id`, `type`, `standard_name` and type-specific attributes untouched
(only its `variants` possibly extended by the query string). -/
theorem claim_C10 (sess : Session) (name : String) (es : List Entity)
    (t : EntityType) (url : String) :
    ((resolve_name sess name es t url).2 = es ∨
      (∃ i e, es[i]? = some e ∧ e.type = t ∧ ¬(name ∈ e.variants) ∧
        (resolve_name sess name es t url).2 =
          updateAt i (fun x => { x with variants := x.variants ++ [name] }) es) ∨
      (∃ x, x.type = t ∧ (resolve_name sess name es t url).2 = es ++ [x])) ∧
    (∀ (j : Nat) (e : Entity), es[j]? = some e →
      ∃ e2 : Entity, (resolve_name sess name es t url).2[j]? = some e2 ∧
        e2.id = e.id ∧ e2.type = e.type ∧ e2.standard_name = e.standard_name ∧
        e2.city = e.city ∧ e2.province_state = e.province_state ∧
        e2.country = e.country ∧ e2.publisher = e.publisher ∧
        (e2.variants = e.variants ∨ e2.variants = e.variants ++ [name])) := by
  refine ⟨resolve_name_cases sess name es t url, ?_⟩
  intro j e hj
  rcases resolve_name_cases sess name es t url with heq | ⟨i, e1, hget, _, _, heq⟩ | ⟨x, _, heq⟩
  · rw [heq]
    exact ⟨e, hj, rfl, rfl, rfl, rfl, rfl, rfl, rfl, Or.inl rfl⟩
  · rw [heq]
    by_cases hij : j = i
    · subst hij
      have hup := updateAt_get_self
        (fun x => { x with variants := x.variants ++ [name] }) es j e hj
      exact ⟨{ e with variants := e.variants ++ [name] }, hup,
        rfl, rfl, rfl, rfl, rfl, rfl, rfl, Or.inr rfl⟩
    · rw [updateAt_get_other _ es i j hij]
      exact ⟨e, hj, rfl, rfl, rfl, rfl, rfl, rfl, rfl, Or.inl rfl⟩
  · rw [heq, getElem?_append_left es [x] j (getElem?_some_lt es j e hj)]
    exact ⟨e, hj, rfl, rfl, rfl, rfl, rfl, rfl, rfl, Or.inl rfl⟩

/-- Witness for C10 at a concrete input: the auto-accepted resolution of
`"x"` keeps the single registry entity in place, only extending its
`variants`. -/
theorem claim_C10_witness :
    ∃ e2,
      ((resolve_name
        { confirm_matches := false
          sim := fun a b => if a = b then 1 else 0
          confirmReply := fun _ _ => "n"
          promptInput := fun _ _ => PromptInput.handler "" {}
          newId := fun _ _ => "2" }
        "x" [{ id := "1", type := EntityType.author, standard_name := "x", variants := [] }]
        EntityType.author "").2)[0]? = some e2 ∧
      e2.id = "1" ∧ e2.type = EntityType.author ∧ e2.standard_name = "x" ∧
      e2.city = "" ∧ e2.province_state = "" ∧ e2.country = "" ∧ e2.publisher = "" ∧
      (e2.variants = [] ∨ e2.variants = ["x"]) :=
  (claim_C10
    { confirm_matches := false
      sim := fun a b => if a = b then 1 else 0
      confirmReply := fun _ _ => "n"
      promptInput := fun _ _ => PromptInput.handler "" {}
      newId := fun _ _ => "2" }
    "x" [{ id := "1", type := EntityType.author, standard_name := "x", variants := [] }]
    EntityType.author "").2 0
    { id := "1", type := EntityType.author, standard_name := "x", variants := [] }
    (by decide)

/-- C6: type isolation: the scan only ever selects an entity of the queried
type (so a name equal to another type's standard_name never matches that
entity), entities of any other type are untouched at their positions, and
every entity of the resulting registry is either an untouched original or has
the queried type. -/
theorem claim_C6 (sess : Session) (name : String) (es : List Entity)
    (t : EntityType) (url : String) :
    (∀ i, (matchScan (sess.sim name) t es).best_idx = some i →
      ∃ e, es[i]? = some e ∧ e.type = t) ∧
    (∀ (j : Nat) (e : Entity), es[j]? = some e → e.type ≠ t →
      (resolve_name sess name es t url).2[j]? = some e) ∧
    (∀ (j : Nat) (e2 : Entity), (resolve_name sess name es t url).2[j]? = some e2 →
      es[j]? = some e2 ∨ e2.type = t) := by
  refine ⟨?_, ?_, ?_⟩
  · intro i hidx
    rcases matchScan_idx_valid (sess.sim name) t es i hidx with ⟨e, hget, ht, _⟩
    exact ⟨e, hget, ht⟩
  · intro j e hj hnt
    rcases resolve_name_cases sess name es t url with heq | ⟨i, e1, hget, ht1, _, heq⟩ | ⟨x, _, heq⟩
    · rw [heq]
      exact hj
    · rw [heq]
      by_cases hij : j = i
      · exfalso
        subst hij
        have he1 : e = e1 := Option.some.inj (hj.symm.trans hget)
        rw [he1] at hnt
        exact hnt ht1
      · rw [updateAt_get_other _ es i j hij]
        exact hj
    · rw [heq, getElem?_append_left es [x] j (getElem?_some_lt es j e hj)]
      exact hj
  · intro j e2 h2
    rcases resolve_name_cases sess name es t url with heq | ⟨i, e1, hget, ht1, _, heq⟩ | ⟨x, htx, heq⟩
    · rw [heq] at h2
      exact Or.inl h2
    · rw [heq] at h2
      by_cases hij : j = i
      · subst hij
        have hup := updateAt_get_self
          (fun x => { x with variants := x.variants ++ [name] }) es j e1 hget
        right
        have he2 : e2 = { e1 with variants := e1.variants ++ [name] } :=
          Option.some.inj (h2.symm.trans hup)
        rw [he2]
        exact ht1
      · rw [updateAt_get_other _ es i j hij] at h2
        exact Or.inl h2
    · rw [heq] at h2
      rcases getElem?_append_one es x j e2 h2 with hl | hr
      · exact Or.inl hl
      · right
        rw [hr]
        exact htx

/-- Witness for C6 at a concrete input: the resolution of an author query
leaves the journal entity of the registry untouched, even though the journal
has exactly the query string as its standard name. -/
theorem claim_C6_witness :
    ((resolve_name
      { confirm_matches := false
        sim := fun a b => if a = b then 1 else 0
        confirmReply := fun _ _ => "n"
        promptInput := fun _ _ => PromptInput.handler "zz" {}
        newId := fun _ _ => "2" }
      "x" [{ id := "1", type := EntityType.journal, standard_name := "x", variants := [] }]
      EntityType.author "").2)[0]? =
      some { id := "1", type := EntityType.journal, standard_name := "x", variants := [] } :=
  (claim_C6
    { confirm_matches := false
      sim := fun a b => if a = b then 1 else 0
      confirmReply := fun _ _ => "n"
      promptInput := fun _ _ => PromptInput.handler "zz" {}
      newId := fun _ _ => "2" }
    "x" [{ id := "1", type := EntityType.journal, standard_name := "x", variants := [] }]
    EntityType.author "").2.1 0
    { id := "1", type := EntityType.journal, standard_name := "x", variants := [] }
    (by decide) (by decide)

theorem mem_le_maxFrom (simm : String → ℚ) :
    ∀ (vs : List String) (b : ℚ) (a : String), a ∈ vs → simm a ≤ maxFrom simm b vs := by
  intro vs
  induction vs with
  | nil => intro b a ha; exact absurd ha (List.not_mem_nil a)
  | cons v vs ih =>
    intro b a ha
    rw [maxFrom_cons]
    rcases List.mem_cons.mp ha with hv | hmem
    · subst hv
      exact le_trans (le_max_right b (simm a)) (le_maxFrom simm vs (max b (simm a)))
    · exact ih (max b (simm v)) a hmem

theorem maxFrom_le (simm : String → ℚ) (c : ℚ) :
    ∀ (vs : List String) (b : ℚ), b ≤ c → (∀ v ∈ vs, simm v ≤ c) →
      maxFrom simm b vs ≤ c := by
  intro vs
  induction vs with
  | nil => intro b hb _; exact hb
  | cons v vs ih =>
    intro b hb hv
    rw [maxFrom_cons]
    refine ih (max b (simm v)) (max_le hb (hv v (List.mem_cons_self v vs))) ?_
    intro w hw
    exact hv w (List.mem_cons_of_mem v hw)

theorem specOverallScore_le (simm : String → ℚ) (c : ℚ) (e : Entity)
    (hs : simm e.standard_name ≤ c) (hv : ∀ v ∈ e.variants, simm v ≤ c) :
    specOverallScore simm e ≤ c :=
  maxFrom_le simm c e.variants (simm e.standard_name) hs hv

theorem le_specOverallScore_of_variant (simm : String → ℚ) (e : Entity) (v : String)
    (hv : v ∈ e.variants) : simm v ≤ specOverallScore simm e :=
  mem_le_maxFrom simm e.variants (simm e.standard_name) v hv

theorem bestFold_le (simm : String → ℚ) (c : ℚ) :
    ∀ (ps : List (Nat × Entity)) (b : ℚ) (d : Option Nat) (m : Option String),
      b ≤ c → (∀ p ∈ ps, specOverallScore simm p.2 ≤ c) →
      (bestFold simm ps b d m).1 ≤ c := by
  intro ps
  induction ps with
  | nil => intro b d m hb _; exact hb
  | cons p ps ih =>
    intro b d m hb hp
    by_cases h : specOverallScore simm p.2 > b
    · have h1 : bestFold simm (p :: ps) b d m =
          bestFold simm ps (specOverallScore simm p.2) (some p.1) (some p.2.standard_name) := by
        simp only [bestFold]
        rw [if_pos h]
      rw [h1]
      refine ih _ _ _ (hp p (List.mem_cons_self p ps)) ?_
      intro q hq
      exact hp q (List.mem_cons_of_mem p hq)
    · have h1 : bestFold simm (p :: ps) b d m = bestFold simm ps b d m := by
        simp only [bestFold]
        rw [if_neg h]
      rw [h1]
      refine ih _ _ _ hb ?_
      intro q hq
      exact hp q (List.mem_cons_of_mem p hq)

theorem mem_of_getElem?_pair :
    ∀ (ps : List (Nat × Entity)) (j : Nat) (p : Nat × Entity),
      ps[j]? = some p → p ∈ ps := by
  intro ps
  induction ps with
  | nil => intro j p h; rw [List.getElem?_nil] at h; cases h
  | cons q ps ih =>
    intro j p h
    match j with
    | 0 =>
      rw [List.getElem?_cons_zero] at h
      rw [Option.some.inj h]
      exact List.mem_cons_self p ps
    | (j' + 1) =>
      rw [List.getElem?_cons_succ] at h
      exact List.mem_cons_of_mem q (ih j' p h)

/-- C5: idempotent variant absorption: if the query string `s` is already a
variant of entity `E` (in particular after a previous auto-accepted
resolution absorbed it), similarity is reflexive at `s` and bounded by 1, and
`E` is the first candidate attaining the maximal score 1, then resolving `s`
again (confirm mode off) returns `E.standard_name` and leaves the registry —
in particular `E.variants` — completely unchanged: the accept path never
appends a string that is already present. -/
theorem claim_C5 (sess : Session) (s : String) (es : List Entity) (t : EntityType)
    (url : String) (jj i : Nat) (E : Entity)
    (hc : sess.confirm_matches = false)
    (hrefl : sess.sim s s = 1)
    (hbound : ∀ b, sess.sim s b ≤ 1)
    (hj : (typeIdx t 0 es)[jj]? = some (i, E))
    (hvar : s ∈ E.variants)
    (hfirst : ∀ (k : Nat) (q : Nat × Entity), k < jj → (typeIdx t 0 es)[k]? = some q →
      specOverallScore (sess.sim s) q.2 < 1) :
    resolve_name sess s es t url = (E.standard_name, es) := by
  have hEmem : (i, E) ∈ typeIdx t 0 es := mem_of_getElem?_pair (typeIdx t 0 es) jj (i, E) hj
  have hEover1 : specOverallScore (sess.sim s) E = 1 := by
    refine le_antisymm ?_ ?_
    · exact specOverallScore_le (sess.sim s) 1 E (hbound E.standard_name) (fun v _ => hbound v)
    · have := le_specOverallScore_of_variant (sess.sim s) E s hvar
      rw [hrefl] at this
      exact this
  have hspec := matchScan_spec (sess.sim s) t es
  have hsc : (matchScan (sess.sim s) t es).best_score =
      (bestFold (sess.sim s) (typeIdx t 0 es) 0 none none).1 := congrArg Prod.fst hspec
  have hscore1 : (matchScan (sess.sim s) t es).best_score = 1 := by
    rw [hsc]
    refine le_antisymm ?_ ?_
    · refine bestFold_le (sess.sim s) 1 (typeIdx t 0 es) 0 none none (by norm_num) ?_
      intro p _
      exact specOverallScore_le (sess.sim s) 1 p.2 (hbound p.2.standard_name)
        (fun v _ => hbound v)
    · have := bestFold_mem_le (sess.sim s) (typeIdx t 0 es) 0 none none (i, E) hEmem
      rw [hEover1] at this
      exact this
  have hpos : 0 < (matchScan (sess.sim s) t es).best_score := by
    rw [hscore1]
    norm_num
  have hposf : 0 < (bestFold (sess.sim s) (typeIdx t 0 es) 0 none none).1 := by
    rw [← hsc]
    exact hpos
  rcases bestFold_first (sess.sim s) (typeIdx t 0 es) 0 none none hposf with
    ⟨j2, p2, hget2, hov2, hidx2, hm2, hfirst2⟩
  have hbest1 : (bestFold (sess.sim s) (typeIdx t 0 es) 0 none none).1 = 1 := by
    rw [← hsc]
    exact hscore1
  have hj2 : j2 = jj := by
    rcases lt_trichotomy j2 jj with hlt | heq | hgt
    · exfalso
      have := hfirst j2 p2 hlt hget2
      rw [hov2, hbest1] at this
      exact lt_irrefl 1 this
    · exact heq
    · exfalso
      have := hfirst2 jj (i, E) hgt hj
      rw [hEover1, hbest1] at this
      exact lt_irrefl 1 this
  have hp2 : p2 = (i, E) := by
    rw [hj2] at hget2
    exact Option.some.inj (hget2.symm.trans hj)
  have hidxE : (matchScan (sess.sim s) t es).best_idx = some i := by
    have h21 : (matchScan (sess.sim s) t es).best_idx =
        (bestFold (sess.sim s) (typeIdx t 0 es) 0 none none).2.1 :=
      congrArg (fun x => x.2.1) hspec
    rw [h21, hidx2, hp2]
  have hr : reachesPrompt sess s es t = false := by
    rw [reachesPrompt, hidxE]
    simp only
    rw [if_pos (by rw [hscore1]; decide), hc, Bool.false_and]
  rcases resolve_dispatch_accept sess s es t url hr with ⟨i3, e3, hidx3, hget3, _, _, heq3⟩
  have hi3 : i3 = i := Option.some.inj (hidx3.symm.trans hidxE)
  have hgetE : es[i]? = some E := (typeIdx_mem_zero t es i E hEmem).1
  have he3 : e3 = E := by
    rw [hi3] at hget3
    exact Option.some.inj (hget3.symm.trans hgetE)
  rw [heq3, hi3, he3]
  have hupd : updateAt i (attachVariant s) es = es :=
    updateAt_id (attachVariant s) es i E hgetE (by rw [attachVariant, if_pos hvar])
  rw [hupd]

/-- Witness for C5 at a concrete input: re-resolving the stored variant
`"s"` returns the canonical name and leaves the registry unchanged. -/
theorem claim_C5_witness :
    resolve_name
      { confirm_matches := false
        sim := fun a b => if a = b then 1 else 0
        confirmReply := fun _ _ => "n"
        promptInput := fun _ _ => PromptInput.handler "" {}
        newId := fun _ _ => "2" }
      "s" [{ id := "1", type := EntityType.author, standard_name := "std", variants := ["s"] }]
      EntityType.author "" =
      ("std", [{ id := "1", type := EntityType.author, standard_name := "std", variants := ["s"] }]) :=
  claim_C5
    { confirm_matches := false
      sim := fun a b => if a = b then 1 else 0
      confirmReply := fun _ _ => "n"
      promptInput := fun _ _ => PromptInput.handler "" {}
      newId := fun _ _ => "2" }
    "s" [{ id := "1", type := EntityType.author, standard_name := "std", variants := ["s"] }]
    EntityType.author "" 0 0
    { id := "1", type := EntityType.author, standard_name := "std", variants := ["s"] }
    rfl (by decide)
    (by
      intro b
      show (if ("s" : String) = b then (1 : ℚ) else 0) ≤ 1
      by_cases hb : ("s" : String) = b
      · rw [if_pos hb]
      · rw [if_neg hb]; norm_num)
    (by decide) (by decide)
    (by
      intro k q hk _
      exact absurd hk (Nat.not_lt_zero k))

/-- C4 (amended): an empty name string short-circuits resolution — the loop
of `standardize_entry` skips it entirely, so no match is attempted, no prompt
is reached, the registry is untouched and the output equals that of the same
record without the empty string; an empty journal field is likewise left
alone.  (Whitespace-only strings are NOT short-circuited — see the
counterexample.) -/
theorem claim_C4 (sess : Session) (t : EntityType) (url : String)
    (rest : List String) (es : List Entity) (entry : Entry) :
    (resolveNames sess t url ("" :: rest) es = resolveNames sess t url rest es) ∧
    (resolveNames sess t url [""] es = ([], es)) ∧
    (entry.journal = "" →
      standardize_entry sess entry es =
        ({ entry with
            authors := (resolveNames sess EntityType.author entry.url entry.authors es).1,
            affiliations := (resolveNames sess EntityType.affiliation entry.url
              entry.affiliations
              (resolveNames sess EntityType.author entry.url entry.authors es).2).1 },
          (resolveNames sess EntityType.affiliation entry.url entry.affiliations
            (resolveNames sess EntityType.author entry.url entry.authors es).2).2)) := by
  refine ⟨?_, ?_, ?_⟩
  · rw [resolveNames, if_pos rfl]
  · rw [resolveNames, if_pos rfl]
    rfl
  · intro hj
    rw [standardize_entry, hj]
    simp

/-- Witness for C4 at a concrete input: an empty journal leaves the record
and registry exactly as the author/affiliation passes produced them. -/
theorem claim_C4_witness :
    standardize_entry
      { confirm_matches := false
        sim := fun _ _ => 0
        confirmReply := fun _ _ => "n"
        promptInput := fun _ _ => PromptInput.handler "" {}
        newId := fun _ _ => "2" }
      { url := "",
        title := "",
        year := "",
        abstract := "",
        authors := [],
        affiliations := [],
        journal := "" } [] =
      Prod.mk
        { url := "",
          title := "",
          year := "",
          abstract := "",
          authors := [],
          affiliations := [],
          journal := "" }
        [] :=
  (claim_C4
    { confirm_matches := false
      sim := fun _ _ => 0
      confirmReply := fun _ _ => "n"
      promptInput := fun _ _ => PromptInput.handler "" {}
      newId := fun _ _ => "2" }
    EntityType.author "" []
    []
    { url := "",
      title := "",
      year := "",
      abstract := "",
      authors := [],
      affiliations := [],
      journal := "" }).2.2 rfl

/-- Counterexample to C4 as stated: a whitespace-only affiliation string is
not short-circuited: it is resolved, reaches the prompt (no candidates), and
the pass-through answer creates a registry entity for `" "`. -/
theorem claim_C4_counterexample :
    (" " : String) ≠ "" ∧
    resolveNames
      { confirm_matches := false
        sim := fun _ _ => 0
        confirmReply := fun _ _ => "n"
        promptInput := fun _ _ => PromptInput.handler "" {}
        newId := fun _ _ => "2" }
      EntityType.affiliation "" [" "] [] =
      ([" "],
        [{ id := "2", type := EntityType.affiliation, standard_name := " ",
           variants := [], city := "", province_state := "", country := "",
           publisher := "" }]) := by
  decide

/-- C8 (amended): an explicitly declined name (the console `"empty"`/`"none"`
marker) resolves to the empty string with the registry untouched; the output
record keeps the same shape with the journal field set to that empty string;
but a declined author or affiliation is dropped from its output list rather
than appearing as an empty string (see the counterexample). -/
theorem claim_C8 (sess : Session) (name : String) (es : List Entity)
    (t : EntityType) (url : String) (entry : Entry) :
    (markerInput (sess.promptInput t name) = true →
      reachesPrompt sess name es t = true →
      resolve_name sess name es t url = ("", es)) ∧
    (entry.journal ≠ "" →
      (standardize_entry sess entry es).1.journal =
        (resolve_name sess entry.journal
          (resolveNames sess EntityType.affiliation entry.url entry.affiliations
            (resolveNames sess EntityType.author entry.url entry.authors es).2).2
          EntityType.journal entry.url).1) ∧
    (∀ (a : String) (rest : List String) (es0 : List Entity),
      a ≠ "" → (resolve_name sess a es0 t url).1 = "" →
      resolveNames sess t url (a :: rest) es0 =
        resolveNames sess t url rest (resolve_name sess a es0 t url).2) := by
  refine ⟨?_, ?_, ?_⟩
  · intro hmk hreach
    rw [resolve_dispatch_prompt sess name es t url hreach]
    rw [prompt_user]
    cases hpi : sess.promptInput t name with
    | handler u info =>
      rw [hpi] at hmk
      simp only [markerInput] at hmk
      cases hmk
    | console raw info =>
      rw [hpi] at hmk
      simp only [markerInput] at hmk
      simp only
      rw [if_pos hmk]
  · intro hj
    rw [standardize_entry]
    rw [if_pos hj]
  · intro a rest es0 ha hres
    rw [resolveNames, if_neg ha]
    simp only [hres]
    simp

/-- Witness for C8 at a concrete input: a declined affiliation resolves to
the empty value with the registry untouched. -/
theorem claim_C8_witness :
    resolve_name
      { confirm_matches := false
        sim := fun _ _ => 0
        confirmReply := fun _ _ => "n"
        promptInput := fun _ _ => PromptInput.console "empty" {}
        newId := fun _ _ => "2" }
      "aff" [] EntityType.affiliation "" = ("", []) :=
  (claim_C8
    { confirm_matches := false
      sim := fun _ _ => 0
      confirmReply := fun _ _ => "n"
      promptInput := fun _ _ => PromptInput.console "empty" {}
      newId := fun _ _ => "2" }
    "aff" [] EntityType.affiliation ""
    { url := "",
      title := "",
      year := "",
      abstract := "",
      authors := [],
      affiliations := [],
      journal := "" }).1
    (by decide) (by decide)

/-- Counterexample to C8 as stated: an affiliation the human explicitly
declines is removed from the output list (the list comes back empty), not
kept as an empty string. -/
theorem claim_C8_counterexample :
    (resolve_name
      { confirm_matches := false
        sim := fun _ _ => 0
        confirmReply := fun _ _ => "n"
        promptInput := fun _ _ => PromptInput.console "empty" {}
        newId := fun _ _ => "2" }
      "aff" [] EntityType.affiliation "").1 = "" ∧
    (standardize_entry
      { confirm_matches := false
        sim := fun _ _ => 0
        confirmReply := fun _ _ => "n"
        promptInput := fun _ _ => PromptInput.console "empty" {}
        newId := fun _ _ => "2" }
      { url := "",
        title := "",
        year := "",
        abstract := "",
        authors := [],
        affiliations := ["aff"],
        journal := "" } []).1.affiliations = [] := by
  decide

/-- C7 (code bug witness): querying `"alice"` against an author whose
variants are `["alice", "bob"]`, with similarity 9/10 for equal strings and
1/10 otherwise, the winning comparison is against the variant `"alice"`
(score 9/10 = best), yet the confirmation message built from the stale loop
variable names `"bob"` — the last variant iterated, whose own score is only
1/10. -/
theorem claim_C7 :
    (matchScan ((fun (a b : String) => if a = b then mkRat 9 10 else mkRat 1 10) "alice")
        EntityType.author
        [{ id := "1", type := EntityType.author, standard_name := "zz",
           variants := ["alice", "bob"] }]).best_score = mkRat 9 10 ∧
    ((fun (a b : String) => if a = b then mkRat 9 10 else mkRat 1 10) "alice") "alice" =
      mkRat 9 10 ∧
    ((fun (a b : String) => if a = b then mkRat 9 10 else mkRat 1 10) "alice") "bob" ≠
      mkRat 9 10 ∧
    (matchScan ((fun (a b : String) => if a = b then mkRat 9 10 else mkRat 1 10) "alice")
        EntityType.author
        [{ id := "1", type := EntityType.author, standard_name := "zz",
           variants := ["alice", "bob"] }]).best_match_source = some MatchSource.variant ∧
    match_info
      (matchScan ((fun (a b : String) => if a = b then mkRat 9 10 else mkRat 1 10) "alice")
        EntityType.author
        [{ id := "1", type := EntityType.author, standard_name := "zz",
           variants := ["alice", "bob"] }]) = "variant bob" := by
  decide

/-! ### Round-trip persistence -/

theorem strListM_map_str :
    ∀ vs : List String, strListM (vs.map Jv.str) = some vs := by
  intro vs
  induction vs with
  | nil => rfl
  | cons v vs ih =>
    rw [List.map_cons, strListM, ih]
    rfl

theorem entityOfJson_entityToJson (e : Entity) (h : WFEntity e) :
    entityOfJson (entityToJson e) = some e := by
  rcases e with ⟨i, ty, sn, vs, ci, ps, co, pu⟩
  cases ty with
  | author =>
    rcases h.1 rfl with ⟨hc, hps, hco, hpu⟩
    dsimp only at hc hps hco hpu
    subst hc; subst hps; subst hco; subst hpu
    simp only [entityToJson, entityOfJson, jGet, asStrList]
    simp [List.find?, strListM_map_str, typeOfString, typeName, asStr]
  | affiliation =>
    have hpu := h.2.1 rfl
    dsimp only at hpu
    subst hpu
    simp only [entityToJson, entityOfJson, jGet, asStrList]
    simp [List.find?, strListM_map_str, typeOfString, typeName, asStr]
  | journal =>
    rcases h.2.2 rfl with ⟨hc, hps, hco⟩
    dsimp only at hc hps hco
    subst hc; subst hps; subst hco
    simp only [entityToJson, entityOfJson, jGet, asStrList]
    simp [List.find?, strListM_map_str, typeOfString, typeName, asStr]

theorem decode_map_entityToJson :
    ∀ es : List Entity, (∀ e ∈ es, WFEntity e) →
      (es.map entityToJson).map entityOfJson = es.map some := by
  intro es
  induction es with
  | nil => intro _; rfl
  | cons e es ih =>
    intro hwf
    simp only [List.map_cons]
    rw [entityOfJson_entityToJson e (hwf e (List.mem_cons_self e es))]
    rw [ih (fun x hx => hwf x (List.mem_cons_of_mem e hx))]

/-- C9: round-trip persistence: saving a registry of well-shaped entities and
loading the result back yields exactly the same collection (so equality up to
variant order holds a fortiori), decoding recovers every entity, and
`save (load (save E))` is byte-identical (hence set-equal) to `save E`. -/
theorem claim_C9 (es : List Entity) (hwf : ∀ e ∈ es, WFEntity e) :
    load_entities (some (some (save_entities (es.map entityToJson)))) =
      es.map entityToJson ∧
    (es.map entityToJson).map entityOfJson = es.map some ∧
    save_entities (load_entities (some (some (save_entities (es.map entityToJson))))) =
      save_entities (es.map entityToJson) :=
  ⟨rfl, decode_map_entityToJson es hwf, rfl⟩

/-- Witness for C9 at a concrete one-entity registry. -/
theorem claim_C9_witness :
    load_entities (some (some (save_entities
        ([{ id := "1", type := EntityType.author, standard_name := "x", variants := ["y"] }].map entityToJson)))) =
      [{ id := "1", type := EntityType.author, standard_name := "x", variants := ["y"] }].map entityToJson ∧
    ([{ id := "1", type := EntityType.author, standard_name := "x", variants := ["y"] }].map entityToJson).map entityOfJson =
      [{ id := "1", type := EntityType.author, standard_name := "x", variants := ["y"] }].map some ∧
    save_entities (load_entities (some (some (save_entities
        ([{ id := "1", type := EntityType.author, standard_name := "x", variants := ["y"] }].map entityToJson))))) =
      save_entities ([{ id := "1", type := EntityType.author, standard_name := "x", variants := ["y"] }].map entityToJson) :=
  claim_C9
    [{ id := "1", type := EntityType.author, standard_name := "x", variants := ["y"] }]
    (by
      intro e he
      rcases List.mem_cons.mp he with heq | hmem
      · subst heq
        exact ⟨fun _ => ⟨rfl, rfl, rfl, rfl⟩, fun _ => rfl, fun h => by cases h⟩
      · exact absurd hmem (List.not_mem_nil e))
